import Mathlib

/-!
# canvas-csv-matcher — shallow embedding and verification

This file embeds the матching/classification engine of `canvas-csv-matcher`
(`src/index.js`, `src/genSearchFunctions.js`, `src/helpers/genPropToCellToUser.js`,
`src/preProcess/users.js`, `src/preProcess/csv.js`) in Lean 4 and settles the
frozen claims about it.

Modelling conventions:
* JavaScript primitive values that flow through the engine are modelled by
  `JSVal` (strings, rational numbers standing in for JS doubles, `NaN`, and
  `undefined`).  Arithmetic on counts and averages is exact rational
  arithmetic; the only places the source divides are tiny integer averages
  and confidence percentages, where IEEE doubles agree with exact rationals
  (`Math.floor(n * 0.4)` = `⌊2n/5⌋` and `Math.round` = `⌊x + 1/2⌋` for the
  values reachable here).
* JS objects used as string-keyed dictionaries are modelled as Lean functions
  from `String` (the stringified key) into an option/entry type; JS object
  property lookup is modelled as own-property lookup (prototype-chain keys
  such as `"constructor"` are outside the model).
* `Array.prototype.sort` with the source's comparators is a stable sort; it
  is modelled by a stable insertion sort (`sortJS`), which agrees with any
  stable sort whenever the comparator is consistent.
* JS `Set` (insertion-ordered, deduplicating) is modelled by a list with a
  dedup-on-insert operation.
* String operations (`trim`, `toLowerCase`, `split(' ')`) are modelled
  character-wise over ASCII, matching the source's use.
* Simplified user objects carry an `idx` field recording their position in
  the roster array; it stands in for JS object identity (each array element
  is a distinct object) and corresponds to no JS property — the embedded
  `Object.keys`/`Object.values` enumerate exactly the six real properties.
-/

/-! ## JS string primitives (ASCII model) -/

/-- Whitespace characters recognised by the model of `String.prototype.trim`. -/
def isSpaceChar (c : Char) : Bool :=
  c = ' ' || c = '\t' || c = '\n' || c = '\r'

/-- ASCII lower-casing of one character (model of `toLowerCase`). -/
def lowerChar (c : Char) : Char :=
  if 'A' ≤ c ∧ c ≤ 'Z' then Char.ofNat (c.toNat + 32) else c

/-- Model of `s.toLowerCase()` (ASCII). -/
def jsToLower (s : String) : String :=
  ⟨s.data.map lowerChar⟩

/-- Model of `s.trim()`: strip leading and trailing whitespace. -/
def jsTrim (s : String) : String :=
  ⟨((s.data.dropWhile isSpaceChar).reverse.dropWhile isSpaceChar).reverse⟩

/-- Split a character list on a separator character (no collapsing),
as `String.prototype.split` does with a one-character separator. -/
def splitCharList (sep : Char) : List Char → List (List Char)
  | [] => [[]]
  | c :: cs =>
    let rest := splitCharList sep cs
    if c = sep then
      [] :: rest
    else
      match rest with
      | [] => [[c]]
      | w :: ws => (c :: w) :: ws

/-- Model of `s.split(' ')`. -/
def jsSplitSpace (s : String) : List String :=
  (splitCharList ' ' s.data).map (fun cs => ⟨cs⟩)

/-! ## JS values -/

/-- The JS primitive values that flow through the engine: strings, finite
numbers, `NaN`, and `undefined`.  Every number the engine itself constructs
is an integer (ids, counts, `Math.round` results), so finite numbers are
modelled as `ℤ`; the two division sites (`Math.round(total / count)` and
`Math.round((matching / size) * 100)`) are folded into integer rounding
(`jsRoundDiv`), exactly as IEEE doubles compute them at these magnitudes.
A caller-supplied non-integer policy value is behaviourally identical to
any other value that strict-equals no count. -/
inductive JSVal where
  | str (s : String)
  | num (n : ℤ)
  | nan
  | undef
deriving DecidableEq

/-- JS truthiness of a `JSVal`. -/
def jsTruthy : JSVal → Bool
  | .str s => s ≠ ""
  | .num n => n ≠ 0
  | .nan => false
  | .undef => false

/-- JS strict equality `===` on `JSVal` (`NaN` equals nothing, not even
itself; values of different types are never equal). -/
def jsStrictEq : JSVal → JSVal → Bool
  | .str a, .str b => a = b
  | .num a, .num b => a = b
  | .undef, .undef => true
  | _, _ => false

/-- Model of JS `String(v)` on the values that reach stringification
(decimal rendering for the integers the engine stringifies). -/
def jsValToString : JSVal → String
  | .str s => s
  | .num n => toString n
  | .nan => "NaN"
  | .undef => "undefined"

/-- JS `a || b` on `JSVal`. -/
def jsOr (a b : JSVal) : JSVal :=
  if jsTruthy a then a else b

/-- Model of `Math.round(total / count)` for natural `total` and positive natural
`count`: round half toward positive infinity, i.e.
`⌊total/count + 1/2⌋ = (2·total + count) fdiv (2·count)`. -/
def jsRoundDiv (total count : ℕ) : ℤ :=
  Int.fdiv (2 * (total : ℤ) + (count : ℤ)) (2 * (count : ℤ))

/-- JS `<` between two confidence values (numbers or `NaN`; any comparison
involving `NaN` is false). -/
def jsLtB : JSVal → JSVal → Bool
  | .num a, .num b => a < b
  | _, _ => false

/-! ## Stable sort (model of `Array.prototype.sort` with the source's
comparators)

The source sorts with comparators of the shape
`(a, b) => a.key < b.key ? 1 : a.key > b.key ? -1 : 0`.  With a consistent
comparator every stable sort produces the same list, so the JS engine's
stable sort is modelled by a stable insertion sort that puts `x` before the
first element `y` with `le x y`. -/

/-- Insert `x` into `l`, before the first `y` such that `le x y`. -/
def insertJS {α : Type} (le : α → α → Bool) (x : α) : List α → List α
  | [] => [x]
  | y :: ys => if le x y then x :: y :: ys else y :: insertJS le x ys

/-- Stable sort: elements compare with `le`; ties keep original order. -/
def sortJS {α : Type} (le : α → α → Bool) (l : List α) : List α :=
  l.foldr (insertJS le) []

theorem insertJS_perm {α : Type} (le : α → α → Bool) (x : α) (l : List α) :
    (insertJS le x l).Perm (x :: l) := by
  induction l with
  | nil => simp [insertJS]
  | cons y ys ih =>
    by_cases h : le x y = true
    · simp [insertJS, h]
    · simp only [insertJS, h, if_false, Bool.false_eq_true]
      exact (ih.cons y).trans (List.Perm.swap x y ys)

theorem sortJS_perm {α : Type} (le : α → α → Bool) (l : List α) :
    (sortJS le l).Perm l := by
  induction l with
  | nil => simp [sortJS]
  | cons x xs ih =>
    exact (insertJS_perm le x (sortJS le xs)).trans (ih.cons x)

structure RawUser where
  id : JSVal
  name : JSVal
  sortable_name : JSVal
  sis_user_id : JSVal
  login_id : JSVal
  email : JSVal
  extra : String := ""
deriving DecidableEq

/-- The six property names of a simplified user object, in declaration
order (= `Object.keys` insertion order in `preProcess/users.js`). -/
inductive PropName where
  | canvasId
  | fullName
  | sortableName
  | sisUserId
  | loginId
  | email
deriving DecidableEq

/-- The `Object.keys` order for a simplified user. -/
def propList : List PropName :=
  [.canvasId, .fullName, .sortableName, .sisUserId, .loginId, .email]

/-- A simplified user object (output of `preProcess/users.js`).  `idx` is
the object's position in the roster array and models JS object identity;
it is not a JS property. -/
structure SimpleUser where
  idx : ℕ
  canvasId : JSVal
  fullName : JSVal
  sortableName : JSVal
  sisUserId : JSVal
  loginId : JSVal
  email : JSVal
deriving DecidableEq

/-- Property read `user[prop]`. -/
def SimpleUser.get (u : SimpleUser) : PropName → JSVal
  | .canvasId => u.canvasId
  | .fullName => u.fullName
  | .sortableName => u.sortableName
  | .sisUserId => u.sisUserId
  | .loginId => u.loginId
  | .email => u.email

/-- Property write `user[prop] = v`. -/
def SimpleUser.set (u : SimpleUser) (p : PropName) (v : JSVal) : SimpleUser :=
  match p with
  | .canvasId => { u with canvasId := v }
  | .fullName => { u with fullName := v }
  | .sortableName => { u with sortableName := v }
  | .sisUserId => { u with sisUserId := v }
  | .loginId => { u with loginId := v }
  | .email => { u with email := v }

/-- Per-field normalisation `String(user.f || '').toLowerCase()` from
`preProcess/users.js`. -/
def normField (v : JSVal) : JSVal :=
  .str (jsToLower (jsValToString (jsOr v (.str ""))))

/-- The "convert to simple objects" pass of `preProcess/users.js`: one
simplified object per raw user, positions recorded in `idx`. -/
def toSimpleUsers (users : List RawUser) : List SimpleUser :=
  users.enum.map (fun iu =>
    { idx := iu.1
      canvasId := iu.2.id
      fullName := normField iu.2.name
      sortableName := normField iu.2.sortable_name
      sisUserId := normField iu.2.sis_user_id
      loginId := normField iu.2.login_id
      email := normField iu.2.email })

/-- The (first, second) property pairs in the order the nested loop of
`findSecondPropOfDuplicate` visits them (`i` outer, `j = i+1 …` inner). -/
def dupPairs : List (PropName × PropName) :=
  [(.canvasId, .fullName), (.canvasId, .sortableName), (.canvasId, .sisUserId),
   (.canvasId, .loginId), (.canvasId, .email),
   (.fullName, .sortableName), (.fullName, .sisUserId), (.fullName, .loginId),
   (.fullName, .email),
   (.sortableName, .sisUserId), (.sortableName, .loginId), (.sortableName, .email),
   (.sisUserId, .loginId), (.sisUserId, .email),
   (.loginId, .email)]

/-- Model of `findSecondPropOfDuplicate` from `preProcess/users.js`: the second
property of the first pair of properties whose values are strictly equal for
every user, or `none`.  The identifier participates like any other property
(it is always the first component, never the returned second). -/
def findSecondPropOfDuplicate (simpleObjects : List SimpleUser) : Option PropName :=
  if simpleObjects.isEmpty then none
  else if propList.length ≤ 1 then none
  else (dupPairs.find? (fun pq =>
    simpleObjects.all (fun o => jsStrictEq (o.get pq.1) (o.get pq.2)))).map (·.2)

/-- Elision: `newObj[secondProp] = undefined` mapped over the list. -/
def elideProp (p : PropName) (objs : List SimpleUser) : List SimpleUser :=
  objs.map (fun o => o.set p .undef)

/-- The `while (stillSearchingForDups)` loop of `preProcess/users.js`,
run with fuel.  The JS loop has no fuel: `none` means the loop has not
finished within `fuel` iterations.  Because a productive iteration turns one
property `undefined` (at most 5 can), and an unproductive iteration repeats
the same state forever, fuel 8 decides termination: `none` at fuel 8 is a
genuine infinite loop in the source. -/
def preProcessLoop : ℕ → List SimpleUser → Option (List SimpleUser)
  | 0, _ => none
  | fuel + 1, objs =>
    match findSecondPropOfDuplicate objs with
    | none => some objs
    | some p => preProcessLoop fuel (elideProp p objs)

/-- Model of `preProcess/users.js`: simplify, then elide duplicate properties until
none remain (`none` = the source loops forever on this input). -/
def preProcessUsers (users : List RawUser) : Option (List SimpleUser) :=
  preProcessLoop 8 (toSimpleUsers users)

/-! ## Field Index (`helpers/genPropToCellToUser.js`) -/

/-- One cell of the `propToCellToUser` lookup: absent (`undefined`),
ambiguous (`null`), or a concrete user.  Only `owner` is JS-truthy. -/
inductive IndexEntry where
  | unset
  | ambiguous
  | owner (u : SimpleUser)
deriving DecidableEq

/-- Index key `String(user[prop]).trim().toLowerCase()` under which a
user's property value is indexed. -/
def indexKey (v : JSVal) : String :=
  jsToLower (jsTrim (jsValToString v))

/-- Insert one property of one user into the index: if the slot is truthy
(a concrete user) overwrite it with `null` (ambiguous), otherwise (absent
*or already null*) write the user.  This is the literal truthiness test of
the source: a third user with the same value overwrites the ambiguity
marker. -/
def insertProp (u : SimpleUser) (m : PropName → String → IndexEntry)
    (p : PropName) : PropName → String → IndexEntry :=
  fun p' c' =>
    if p' = p then
      if c' = indexKey (u.get p) then
        match m p (indexKey (u.get p)) with
        | .owner _ => .ambiguous
        | _ => .owner u
      else m p' c'
    else m p' c'

/-- Insert one user into the index (`Object.keys(user).forEach`). -/
def insertUser (m : PropName → String → IndexEntry) (u : SimpleUser) :
    PropName → String → IndexEntry :=
  propList.foldl (insertProp u) m

/-- Model of `genPropToCellToUser`: fold all users into the empty index. -/
def genPropToCellToUser (users : List SimpleUser) : PropName → String → IndexEntry :=
  users.foldl insertUser (fun _ _ => .unset)

/-- Model of `Object.keys(propToCellToUser)`: no keys at all when the roster is
empty (no insertion ever ran), otherwise all six properties in declaration
order (the first user initialises every property key). -/
def indexProps (users : List SimpleUser) : List PropName :=
  if users.isEmpty then [] else propList

/-! ## Search functions (`genSearchFunctions.js`) -/

/-- Model of `getMatch(prop, cell)`: look the **raw** cell string up in the index —
the source does *not* trim or lower-case the cell here — and return the
user only if the slot is truthy. -/
def getMatch (propToCellToUser : PropName → String → IndexEntry)
    (prop : PropName) (cell : String) : Option SimpleUser :=
  match propToCellToUser prop cell with
  | .owner u => some u
  | _ => none

/-- JS `Set.add` on an insertion-ordered set modelled as a list. -/
def addWord (l : List String) (w : String) : List String :=
  if w ∈ l then l else l ++ [w]

/-- Tokens of one user field for the bag of words:
`String(cell).toLowerCase().trim().split(' ')` with empty words skipped. -/
def userBagWords (v : JSVal) : List String :=
  (jsSplitSpace (jsTrim (jsToLower (jsValToString v)))).filter (fun w => w.length ≠ 0)

/-- Tokens of one row cell: `cell.trim().toLowerCase().split(' ')` with
empty words skipped. -/
def rowCellWords (s : String) : List String :=
  (jsSplitSpace (jsToLower (jsTrim s))).filter (fun w => w.length ≠ 0)

/-- The bag of words of one user: every token of every property value
(`Object.values`, declaration order), deduplicated in insertion order. -/
def userBag (u : SimpleUser) : List String :=
  (propList.map (u.get ·)).foldl (fun bag v => (userBagWords v).foldl addWord bag) []

/-- Model of `idToBagOfWords`: dictionary keyed by `String(canvasId)`; a later user
with the same key overwrites an earlier one. -/
def idToBagOfWords (users : List SimpleUser) : String → List String :=
  users.foldl (fun m u => fun k => if k = jsValToString u.canvasId then userBag u else m k)
    (fun _ => [])

/-- The `word => true` membership test for the row's bag of words. -/
def wordInRow (row : List String) (w : String) : Bool :=
  (row.flatMap rowCellWords).contains w

/-- The sort comparator of `getConfidenceRatings`
(`a.confidence < b.confidence ? 1 : a.confidence > b.confidence ? -1 : 0`):
`a` may precede `b` iff not `a.confidence < b.confidence`. -/
def ratingLe (a b : SimpleUser × JSVal) : Bool :=
  !(jsLtB a.2 b.2)

/-- The exclusion dictionary: keyed by `user.canvasId || user.id`; a
simplified user has no `id` property, so the fallback is `undefined`. -/
def userIsExcluded (usersToExclude : List SimpleUser) : String → Bool :=
  usersToExclude.foldl
    (fun m u => fun k => if k = jsValToString (jsOr u.canvasId .undef) then true else m k)
    (fun _ => false)

/-- The users the scorer ranks: the roster minus the excluded ones (this
filter keys by `user.canvasId` without the `|| user.id` fallback). -/
def usersToInclude (users usersToExclude : List SimpleUser) : List SimpleUser :=
  users.filter (fun u => !(userIsExcluded usersToExclude (jsValToString u.canvasId)))

/-- The confidence value attached to one user: `Math.round((numMatching /
bagOfWords.size) * 100)` — in exact arithmetic `(n/size)·100 = 100n/size`,
so this is `jsRoundDiv (100·numMatching) size`; an empty bag gives
`0 / 0 = NaN` in the source. -/
def confidenceOf (bags : String → List String) (row : List String) (u : SimpleUser) : JSVal :=
  let bagOfWords := bags (jsValToString u.canvasId)
  let numMatching := bagOfWords.countP (fun w => wordInRow row w)
  if bagOfWords.length = 0 then .nan
  else .num (jsRoundDiv (100 * numMatching) bagOfWords.length)

/-- Model of `getConfidenceRatings(row, usersToExclude)` from `genSearchFunctions.js`. -/
def getConfidenceRatings (users : List SimpleUser) (row : List String)
    (usersToExclude : List SimpleUser) : List (SimpleUser × JSVal) :=
  sortJS ratingLe
    ((usersToInclude users usersToExclude).map
      (fun u => (u, confidenceOf (idToBagOfWords users) row u)))

/-! ## CSV pre-processing (`preProcess/csv.js`, pre-parsed-object path) -/

structure CSVInput where
  headers : List String
  rows : List (List String)
deriving DecidableEq

/-- Model of `preProcess/csv.js` on an already-parsed `{ headers, rows }` object:
drop empty/blank rows, then drop rows whose length differs from the header
row.  (The string/file path and its parse errors are external I/O, outside
the engine modelled here.) -/
def preProcessCSV (csv : CSVInput) : CSVInput :=
  { headers := csv.headers
    rows :=
      (csv.rows.filter (fun row =>
        !row.isEmpty && row.any (fun cell => (jsTrim cell).length > 0))).filter
        (fun row => row.length = csv.headers.length) }

/-! ## Column classification (`index.js`) -/

/-- The three column types of `index.js` (`COL_TYPES`). -/
inductive ColType where
  | data
  | student
  | teachingTeamMember
deriving DecidableEq

/-- The string value of a `COL_TYPES` member, used inside error messages. -/
def colTypeName : ColType → String
  | .data => "data"
  | .student => "student"
  | .teachingTeamMember => "teaching team member"

/-- A column's detected type and property. -/
structure TypeAndProp where
  type : ColType
  prop : Option PropName
deriving DecidableEq

/-- One entry of the per-column `typeData` array. -/
structure TypeData where
  type : ColType
  prop : PropName
  minToMatch : ℕ
  numMatching : ℕ
deriving DecidableEq

/-- The `typeData` sort comparator (descending `numMatching`, stable). -/
def typeDataLe (a b : TypeData) : Bool :=
  !(decide (a.numMatching < b.numMatching))

/-- One entry of `typeData` for one (roster, property) pair: count the
cells whose trimmed lower-cased value hits a truthy index slot, and record
the acceptance bar `Math.floor(numNonempty * 0.4)` (= `⌊2·numNonempty/5⌋`
exactly; the double product never crosses an integer for these
magnitudes). -/
def typeDataFor (ty : ColType) (idx : PropName → String → IndexEntry)
    (cells : List String) (p : PropName) : TypeData :=
  { type := ty
    prop := p
    minToMatch := 2 * cells.countP (fun cell => (jsTrim cell).length > 0) / 5
    numMatching := cells.countP (fun cell =>
      match idx p (jsToLower (jsTrim cell)) with
      | .owner _ => true
      | _ => false) }

/-- Classify one column: build `typeData` (student pod first, properties in
declaration order), stable-sort it by descending `numMatching`, and accept
the head if it reaches its bar, else mark the column as data.  (With both
rosters empty the source would crash reading `typeData[0]`; that state is
unreachable behind the roster guard and is mapped to data here.) -/
def classifyColumn (idxS idxT : PropName → String → IndexEntry)
    (propsS propsT : List PropName) (cells : List String) : TypeAndProp :=
  let typeData := propsS.map (typeDataFor .student idxS cells)
    ++ propsT.map (typeDataFor .teachingTeamMember idxT cells)
  match (sortJS typeDataLe typeData).head? with
  | none => { type := .data, prop := none }
  | some bestMatch =>
    if bestMatch.numMatching < bestMatch.minToMatch then
      { type := .data, prop := none }
    else
      { type := bestMatch.type, prop := some bestMatch.prop }

/-- The per-column classification pass of `index.js` (one entry per header
column). -/
def classifyColumns (students teachingTeamMembers : List SimpleUser)
    (headers : List String) (rows : List (List String)) : List TypeAndProp :=
  let idxS := genPropToCellToUser students
  let idxT := genPropToCellToUser teachingTeamMembers
  (List.range headers.length).map (fun colIndex =>
    classifyColumn idxS idxT (indexProps students) (indexProps teachingTeamMembers)
      (rows.map (fun row => row.getD colIndex "")))

/-! ## Row matching and row resolution (`index.js`) -/

/-- The per-row match sets (`{ students, teachingTeamMembers }`), each a JS
`Set` serialised by `Array.from` in insertion order. -/
structure RowMatch where
  students : List SimpleUser
  teachingTeamMembers : List SimpleUser
deriving DecidableEq

/-- JS `Set.add` for user objects (object identity = structural equality
here, since distinct array elements carry distinct `idx`). -/
def addUser (l : List SimpleUser) (u : SimpleUser) : List SimpleUser :=
  if u ∈ l then l else l ++ [u]

/-- One cell of the row-matching loop: for a non-data column, run
`getMatch` on the raw cell and add any hit to the per-roster set. -/
def rowMatchStep (idxS idxT : PropName → String → IndexEntry)
    (colTypes : List TypeAndProp) (acc : RowMatch) (ci : ℕ × String) : RowMatch :=
  let t := colTypes.getD ci.1 { type := .data, prop := none }
  match t.type, t.prop with
  | .data, _ => acc
  | .student, some p =>
    match getMatch idxS p ci.2 with
    | some u => { acc with students := addUser acc.students u }
    | none => acc
  | .student, none => acc
  | .teachingTeamMember, some p =>
    match getMatch idxT p ci.2 with
    | some u => { acc with teachingTeamMembers := addUser acc.teachingTeamMembers u }
    | none => acc
  | .teachingTeamMember, none => acc

/-- Match one row: fold the matching step over the row's cells. -/
def computeRowMatch (idxS idxT : PropName → String → IndexEntry)
    (colTypes : List TypeAndProp) (row : List String) : RowMatch :=
  row.enum.foldl (rowMatchStep idxS idxT colTypes)
    { students := [], teachingTeamMembers := [] }

/-- The `AUTO_DETECT` default expected-count policy value. -/
def AUTO_DETECT : JSVal := .str "auto-detect"

/-- Defaulting: `numStudentsPerRow !== undefined && !== null ? value : AUTO_DETECT`. -/
def defaultPolicy (v : JSVal) : JSVal :=
  if v = .undef then AUTO_DETECT else v

/-- Resolve an expected-count policy: `auto-detect` becomes
`Math.round(total / numRowsInCount)`; with zero counted rows the source
computes `0 / 0 = NaN`.  Any other value passes through unvalidated. -/
def resolveExpected (init : JSVal) (total : ℕ) (numRowsInCount : ℕ) : JSVal :=
  if jsStrictEq init AUTO_DETECT then
    if numRowsInCount = 0 then .nan
    else .num (jsRoundDiv total numRowsInCount)
  else init

/-- Model of `genNumPerRowErrorMessage(type, expected, actual)` from `index.js`:
`null` (= `none`) when the count is acceptable, an error string otherwise.
All comparisons are JS strict equality, so a `NaN` or malformed `expected`
never equals the actual count. -/
def genNumPerRowErrorMessage (type : String) (expected : JSVal) (actual : ℕ) :
    Option String :=
  if jsStrictEq expected (.str "any") then none
  else if jsStrictEq expected (.str "at-least-one") then
    if 0 < actual then none
    else some ("There should be at least one " ++ type
      ++ " in this row but we couldn\x27t find any.")
  else if jsStrictEq expected (.num (actual : ℤ)) then none
  else some ("There should be " ++ jsValToString expected ++ " " ++ type
    ++ (if jsStrictEq expected (.num 1) then "" else "s")
    ++ " in this row but instead, but we found " ++ toString actual ++ " instead.")

/-- The disqualification message recorded for a repeat occurrence. -/
def disqMessage (type : String) (u : SimpleUser) : String :=
  "Each " ++ type ++ " can only show up once in your CSV, but "
    ++ jsValToString u.fullName ++ " showed up more than once."

/-- One user of one row in `findDisqualified`'s scan: if the `canvasId`
key was already seen, record (or overwrite) the disqualification message,
else mark it seen. -/
def disqStep (type : String) (st : (String → Bool) × (String → Option String))
    (u : SimpleUser) : (String → Bool) × (String → Option String) :=
  let k := jsValToString u.canvasId
  if st.1 k then
    (st.1, fun k2 => if k2 = k then some (disqMessage type u) else st.2 k2)
  else
    (fun k2 => if k2 = k then true else st.1 k2, st.2)

/-- Model of `findDisqualified(type)`: scan all rows in order with a fresh
`alreadySeen`, accumulating into the shared `isDisqualified` dictionary. -/
def findDisqualified (type : String) (pick : RowMatch → List SimpleUser)
    (rowMatches : List RowMatch) (init : String → Option String) :
    String → Option String :=
  (rowMatches.foldl (fun st rm => (pick rm).foldl (disqStep type) st)
    ((fun _ => false), init)).2

/-- A matched row before hydration (simplified users). -/
structure MatchedRowPre where
  rawRow : List String
  dataColumns : List String
  students : List SimpleUser
  teachingTeamMembers : List SimpleUser
  rowIndex : ℕ
deriving DecidableEq

/-- An unmatched row before suggestions are attached. -/
structure UnmatchedRowPre where
  rawRow : List String
  dataColumns : List String
  errors : List String
  rowIndex : ℕ
deriving DecidableEq

/-- The cells of the data columns of a row, in order. -/
def dataColumnsOf (colTypes : List TypeAndProp) (row : List String) : List String :=
  (row.enum.filter
    (fun ci => (colTypes.getD ci.1 { type := .data, prop := none }).type = .data)).map (·.2)

/-- The `unmatchedErrors` of one row, in push order: disqualification
messages for the row's students, then for its teaching team members, then
the two cardinality errors. -/
def rowErrors (isDisq : String → Option String) (numS numT : JSVal) (rm : RowMatch) :
    List String :=
  (rm.students.filterMap (fun u => isDisq (jsValToString u.canvasId)))
    ++ (rm.teachingTeamMembers.filterMap (fun u => isDisq (jsValToString u.canvasId)))
    ++ (genNumPerRowErrorMessage "student" numS rm.students.length).toList
    ++ (genNumPerRowErrorMessage "teaching team member" numT
          rm.teachingTeamMembers.length).toList

/-- Split the rows into matched and unmatched, preserving order (the
source's two `push` streams over the same `forEach`). -/
def partitionRows (colTypes : List TypeAndProp) (rows : List (List String))
    (rowMatches : List RowMatch) (isDisq : String → Option String)
    (numS numT : JSVal) : List MatchedRowPre × List UnmatchedRowPre :=
  (rowMatches.enum.filterMap (fun irm =>
      if (rowErrors isDisq numS numT irm.2).isEmpty then
        some { rawRow := rows.getD irm.1 []
               dataColumns := dataColumnsOf colTypes (rows.getD irm.1 [])
               students := irm.2.students
               teachingTeamMembers := irm.2.teachingTeamMembers
               rowIndex := irm.1 }
      else none),
   rowMatches.enum.filterMap (fun irm =>
      let errors := rowErrors isDisq numS numT irm.2
      if errors.isEmpty then none
      else
        some { rawRow := rows.getD irm.1 []
               dataColumns := dataColumnsOf colTypes (rows.getD irm.1 [])
               errors := errors
               rowIndex := irm.1 }))

/-- The `usersToExclude` collection: the matched rows' users of every roster whose
only-once flag is set (students pass first). -/
def usersToExcludeOf (studentOnlyOnce teachingTeamMemberOnlyOnce : Bool)
    (matched : List MatchedRowPre) : List SimpleUser :=
  (if studentOnlyOnce then matched.flatMap (·.students) else [])
    ++ (if teachingTeamMemberOnlyOnce then matched.flatMap (·.teachingTeamMembers) else [])

/-! ## Output shape and the top-level engine (`index.js` export) -/

/-- One entry of the returned `colTypes` array. -/
structure ColTypeOut where
  type : String
  property : Option String
deriving DecidableEq

/-- The `propNameMap` renaming from the wrap-up phase. -/
def propNameMap : PropName → String
  | .canvasId => "canvas-id"
  | .fullName => "name"
  | .sortableName => "sortable-name"
  | .sisUserId => "university-id"
  | .loginId => "login-id"
  | .email => "email"

/-- Model of `idToFullUser`: `String(user.id)` → the caller's raw record; built
over students then teaching team members, later entries overwriting. -/
def idToFullUser (students teachingTeamMembers : List RawUser) :
    String → Option RawUser :=
  (students ++ teachingTeamMembers).foldl
    (fun m u => fun k => if k = jsValToString u.id then some u else m k)
    (fun _ => none)

/-- A matched row of the final result (hydrated: raw roster records). -/
structure MatchedRow where
  rawRow : List String
  dataColumns : List String
  students : List (Option RawUser)
  teachingTeamMembers : List (Option RawUser)
  rowIndex : ℕ
deriving DecidableEq

/-- An unmatched row of the final result (errors + hydrated ranked
suggestions). -/
structure UnmatchedRow where
  rawRow : List String
  dataColumns : List String
  errors : List String
  rowIndex : ℕ
  potentialStudents : List (Option RawUser × JSVal)
  potentialTeachingTeamMembers : List (Option RawUser × JSVal)
deriving DecidableEq

/-- The object returned by the engine. -/
structure MatchResult where
  colTypes : List ColTypeOut
  dataHeaders : List String
  numStudentsPerRow : JSVal
  numTeachingTeamMembersPerRow : JSVal
  matchedRows : List MatchedRow
  unmatchedRows : List UnmatchedRow
  csvHeaders : List String
  csvRows : List (List String)
deriving DecidableEq

/-- The caller's options object. -/
structure Opts where
  csv : CSVInput
  students : List RawUser := []
  teachingTeamMembers : List RawUser := []
  studentOnlyOnce : Bool := false
  teachingTeamMemberOnlyOnce : Bool := false
  numStudentsPerRow : JSVal := JSVal.undef
  numTeachingTeamMembersPerRow : JSVal := JSVal.undef

/-- The column classifications the run uses (computed once per table). -/
def pipelineColTypes (opts : Opts) (students teachingTeamMembers : List SimpleUser) :
    List TypeAndProp :=
  classifyColumns students teachingTeamMembers (preProcessCSV opts.csv).headers
    (preProcessCSV opts.csv).rows

/-- The per-row match sets of the run, in table order. -/
def pipelineRowMatches (opts : Opts) (students teachingTeamMembers : List SimpleUser) :
    List RowMatch :=
  (preProcessCSV opts.csv).rows.map
    (computeRowMatch (genPropToCellToUser students)
      (genPropToCellToUser teachingTeamMembers)
      (pipelineColTypes opts students teachingTeamMembers))

/-- The rows that enter the auto-detect average: rows with at least one
match in either roster. -/
def pipelineCounted (opts : Opts) (students teachingTeamMembers : List SimpleUser) :
    List RowMatch :=
  (pipelineRowMatches opts students teachingTeamMembers).filter
    (fun rm => !rm.students.isEmpty || !rm.teachingTeamMembers.isEmpty)

/-- The resolved `numStudentsPerRow` the run uses. -/
def pipelineNumS (opts : Opts) (students teachingTeamMembers : List SimpleUser) : JSVal :=
  resolveExpected (defaultPolicy opts.numStudentsPerRow)
    ((pipelineCounted opts students teachingTeamMembers).map (·.students.length)).sum
    (pipelineCounted opts students teachingTeamMembers).length

/-- The resolved `numTeachingTeamMembersPerRow` the run uses. -/
def pipelineNumT (opts : Opts) (students teachingTeamMembers : List SimpleUser) : JSVal :=
  resolveExpected (defaultPolicy opts.numTeachingTeamMembersPerRow)
    ((pipelineCounted opts students teachingTeamMembers).map
        (·.teachingTeamMembers.length)).sum
    (pipelineCounted opts students teachingTeamMembers).length

/-- The `isDisqualified` dictionary of the run: the student pass (if the
student only-once flag is set) followed by the teaching-team pass (if that
flag is set), writing into the same dictionary. -/
def pipelineIsDisq (opts : Opts) (students teachingTeamMembers : List SimpleUser) :
    String → Option String :=
  let disq1 : String → Option String :=
    if opts.studentOnlyOnce then
      findDisqualified "student" (·.students)
        (pipelineRowMatches opts students teachingTeamMembers) (fun _ => none)
    else (fun _ => none)
  if opts.teachingTeamMemberOnlyOnce then
    findDisqualified "teaching team member" (·.teachingTeamMembers)
      (pipelineRowMatches opts students teachingTeamMembers) disq1
  else disq1

/-- The matched/unmatched partition of the run (pre-hydration). -/
def pipelineParts (opts : Opts) (students teachingTeamMembers : List SimpleUser) :
    List MatchedRowPre × List UnmatchedRowPre :=
  partitionRows (pipelineColTypes opts students teachingTeamMembers)
    (preProcessCSV opts.csv).rows
    (pipelineRowMatches opts students teachingTeamMembers)
    (pipelineIsDisq opts students teachingTeamMembers)
    (pipelineNumS opts students teachingTeamMembers)
    (pipelineNumT opts students teachingTeamMembers)

/-- The body of the engine after the roster guard: classification, row
matching, policy resolution, disqualification, partition, suggestions,
hydration. -/
def matchCSVCore (opts : Opts) (students teachingTeamMembers : List SimpleUser) :
    MatchResult :=
  let csv := preProcessCSV opts.csv
  let colTypesArr := pipelineColTypes opts students teachingTeamMembers
  let parts := pipelineParts opts students teachingTeamMembers
  let excl := usersToExcludeOf opts.studentOnlyOnce opts.teachingTeamMemberOnlyOnce parts.1
  let hydrate := idToFullUser opts.students opts.teachingTeamMembers
  { colTypes := colTypesArr.map
      (fun t => { type := colTypeName t.type, property := t.prop.map propNameMap })
    dataHeaders := (csv.headers.enum.filter
      (fun ch => (colTypesArr.getD ch.1 { type := .data, prop := none }).type = .data)).map
        (·.2)
    numStudentsPerRow := pipelineNumS opts students teachingTeamMembers
    numTeachingTeamMembersPerRow := pipelineNumT opts students teachingTeamMembers
    matchedRows := parts.1.map (fun r =>
      { rawRow := r.rawRow
        dataColumns := r.dataColumns
        students := r.students.map (fun u => hydrate (jsValToString u.canvasId))
        teachingTeamMembers :=
          r.teachingTeamMembers.map (fun u => hydrate (jsValToString u.canvasId))
        rowIndex := r.rowIndex })
    unmatchedRows := parts.2.map (fun r =>
      { rawRow := r.rawRow
        dataColumns := r.dataColumns
        errors := r.errors
        rowIndex := r.rowIndex
        potentialStudents := (getConfidenceRatings students r.rawRow excl).map
          (fun uc => (hydrate (jsValToString uc.1.canvasId), uc.2))
        potentialTeachingTeamMembers :=
          (getConfidenceRatings teachingTeamMembers r.rawRow excl).map
            (fun uc => (hydrate (jsValToString uc.1.canvasId), uc.2)) })
    csvHeaders := csv.headers
    csvRows := csv.rows }

/-- What a call of the engine does: hang (the normalizer's elision loop
never finishes), throw (`.err`), or return a result. -/
inductive MatchOutcome where
  | hang
  | err (msg : String)
  | ok (res : MatchResult)
deriving DecidableEq

/-- The exported function of `index.js` (with the CSV already parsed into
`{ headers, rows }`).  The only throw on this path is the empty-rosters
guard; `hang` records that `preProcessUsers` loops forever. -/
def matchCSV (opts : Opts) : MatchOutcome :=
  match preProcessUsers opts.students with
  | none => .hang
  | some students =>
    match preProcessUsers opts.teachingTeamMembers with
    | none => .hang
    | some teachingTeamMembers =>
      if students.isEmpty && teachingTeamMembers.isEmpty then
        .err "No users to match with, or all users included are empty"
      else
        .ok (matchCSVCore opts students teachingTeamMembers)

/-- Projection: the result of a run that returned one. -/
def MatchOutcome.resultOf : MatchOutcome → Option MatchResult
  | .ok r => some r
  | _ => none

/-! ## Concrete rosters used to exercise the engine -/

/-- A raw user with numeric id and the five descriptive string fields. -/
def mkRawUser (i : ℤ) (n sn si lo em : String) : RawUser :=
  { id := .num i, name := .str n, sortable_name := .str sn, sis_user_id := .str si,
    login_id := .str lo, email := .str em }

/-- Three distinct users who share the full name `Alex`. -/
def alexRaw1 : RawUser := mkRawUser 1 "Alex" "sa" "ia" "la" "ea"

def alexRaw2 : RawUser := mkRawUser 2 "Alex" "sb" "ib" "lb" "eb"

def alexRaw3 : RawUser := mkRawUser 3 "Alex" "sc" "ic" "lc" "ec"

/-- The simplified form of `alexRaw3` at roster position 2 (no elision
fires on this roster). -/
def alexSimple3 : SimpleUser :=
  { idx := 2, canvasId := .num 3, fullName := .str "alex", sortableName := .str "sc",
    sisUserId := .str "ic", loginId := .str "lc", email := .str "ec" }

/-- The simplified form of `alexRaw1` at roster position 0. -/
def alexSimple1 : SimpleUser :=
  { idx := 0, canvasId := .num 1, fullName := .str "alex", sortableName := .str "sa",
    sisUserId := .str "ia", loginId := .str "la", email := .str "ea" }

/-- A user whose full name is blank and whose other fields are distinct
(so the elision loop terminates without firing). -/
def blankNameRaw : RawUser := mkRawUser 1 "" "aa" "bb" "cc" "dd"

/-- The simplified form of `blankNameRaw`. -/
def blankNameSimple : SimpleUser :=
  { idx := 0, canvasId := .num 1, fullName := .str "", sortableName := .str "aa",
    sisUserId := .str "bb", loginId := .str "cc", email := .str "dd" }

/-- A user whose name, sortable name and SIS id coincide: the elision loop
elides two fields and then finds the two-`undefined` pair forever. -/
def dupFieldsRaw : RawUser := mkRawUser 1 "a" "a" "a" "lo" "em"

/-! ## C1 / C2: the Field Index truthiness bug -/

/-- C1 (code_bug): the Exact Matcher neither normalizes the cell nor
refuses values owned by two-plus identities.  With three identities owning
`fullName = "alex"`, `getMatch` returns the **third** identity; and with a
unique owner, the cell `"Alex"` (differing only in case from the indexed
value) returns no match although exactly one identity owns the normalized
value, while the already-lower-cased cell does match. -/
theorem c1_exact_matcher_bug :
    (preProcessUsers [alexRaw1, alexRaw2, alexRaw3]).map
        (fun l => getMatch (genPropToCellToUser l) .fullName "alex")
      = some (some alexSimple3)
    ∧ (preProcessUsers [alexRaw1]).map
        (fun l => getMatch (genPropToCellToUser l) .fullName "Alex")
      = some none
    ∧ (preProcessUsers [alexRaw1]).map
        (fun l => getMatch (genPropToCellToUser l) .fullName "alex")
      = some (some alexSimple1) := by
  refine ⟨?_, ?_, ?_⟩ <;> decide

/-- C2 (code_bug): the ambiguity marker is not permanent.  Two identities
with the same `(field, value)` do collapse the entry to the ambiguous
marker, but inserting a **third** identity with the same value overwrites
the marker (which is JS-falsy) with that identity, so the entry resolves to
a concrete identity again. -/
theorem c2_ambiguous_marker_not_permanent :
    (preProcessUsers [alexRaw1, alexRaw2]).map
        (fun l => genPropToCellToUser l .fullName "alex")
      = some .ambiguous
    ∧ (preProcessUsers [alexRaw1, alexRaw2, alexRaw3]).map
        (fun l => genPropToCellToUser l .fullName "alex")
      = some (.owner alexSimple3) := by
  refine ⟨?_, ?_⟩ <;> decide

/-! ## C8: the duplicate-elision loop -/

/-- Once the loop reaches a state where the first duplicate pair consists
of two already-elided properties, eliding again changes nothing and the
loop never terminates, for any amount of fuel. -/
theorem preProcessLoop_stuck (s : List SimpleUser) (p : PropName)
    (h1 : findSecondPropOfDuplicate s = some p) (h2 : elideProp p s = s) :
    ∀ fuel, preProcessLoop fuel s = none := by
  intro fuel
  induction fuel with
  | zero => rfl
  | succ n ih => simp [preProcessLoop, h1, h2, ih]

/-- C8 (code_bug): the elision loop does **not** terminate on every input.
On a roster whose single user has `name`, `sortable_name` and `sis_user_id`
all equal, the loop elides `sortableName` and `sisUserId` and then finds the
pair of two `undefined` properties forever (eliding an already-`undefined`
property is a no-op), so `preProcessUsers` — and with it the whole engine —
hangs. -/
theorem c8_elision_loop_diverges :
    (∀ fuel, preProcessLoop fuel (toSimpleUsers [dupFieldsRaw]) = none)
    ∧ preProcessUsers [dupFieldsRaw] = none
    ∧ matchCSV { csv := { headers := ["h"], rows := [["x"]] },
                 students := [dupFieldsRaw] } = .hang := by
  have h0 : findSecondPropOfDuplicate (toSimpleUsers [dupFieldsRaw])
      = some .sortableName := by decide
  have h1 : findSecondPropOfDuplicate
      (elideProp .sortableName (toSimpleUsers [dupFieldsRaw])) = some .sisUserId := by
    decide
  have h2 : findSecondPropOfDuplicate
      (elideProp .sisUserId (elideProp .sortableName (toSimpleUsers [dupFieldsRaw])))
      = some .sisUserId := by decide
  have h3 : elideProp .sisUserId
      (elideProp .sisUserId (elideProp .sortableName (toSimpleUsers [dupFieldsRaw])))
      = elideProp .sisUserId (elideProp .sortableName (toSimpleUsers [dupFieldsRaw])) := by
    decide
  have hloop : ∀ fuel, preProcessLoop fuel (toSimpleUsers [dupFieldsRaw]) = none := by
    intro fuel
    match fuel with
    | 0 => rfl
    | 1 => simp [preProcessLoop, h0]
    | (n + 2) =>
      have hstuck := preProcessLoop_stuck _ _ h2 h3
      simp [preProcessLoop, h0, h1, hstuck]
  refine ⟨hloop, hloop 8, ?_⟩
  show matchCSV _ = _
  simp only [matchCSV, preProcessUsers]
  rw [hloop 8]

/-! ## C7: blank and elided fields in the Field Index -/

/-- C7 (counterexample): a field whose value is blank **does** produce a
Field Index entry.  With a single-user roster whose `name` is the empty
string, the index maps `(fullName, "")` to that user, and `getMatch` on the
empty cell returns an exact match — a blank field contributing to an exact
match. -/
theorem c7_blank_field_is_indexed :
    (preProcessUsers [blankNameRaw]).map
        (fun l => genPropToCellToUser l .fullName "")
      = some (.owner blankNameSimple)
    ∧ (preProcessUsers [blankNameRaw]).map
        (fun l => getMatch (genPropToCellToUser l) .fullName "")
      = some (some blankNameSimple) := by
  refine ⟨?_, ?_⟩ <;> decide

/-- One property-insertion step never produces `unset`: at its own key it
writes `ambiguous` or `owner`, elsewhere it keeps the old entry. -/
theorem insertProp_preserves_ne_unset (u : SimpleUser)
    (m : PropName → String → IndexEntry) (p p' : PropName) (c' : String)
    (h : m p' c' ≠ .unset) : insertProp u m p p' c' ≠ .unset := by
  unfold insertProp
  by_cases hp : p' = p
  · subst hp
    by_cases hc : c' = indexKey (u.get p')
    · simp only [hc, if_pos rfl]
      cases m p' (indexKey (u.get p')) <;> simp
    · simpa [hc] using h
  · simpa [hp] using h

/-- After inserting a user, the entry at each of the user's own
(property, key) positions is not `unset`. -/
theorem insertProp_self_ne_unset (u : SimpleUser)
    (m : PropName → String → IndexEntry) (p : PropName) :
    insertProp u m p p (indexKey (u.get p)) ≠ .unset := by
  unfold insertProp
  simp only [if_pos rfl]
  cases m p (indexKey (u.get p)) <;> simp

/-- Folding property insertions preserves non-`unset` entries. -/
theorem foldl_insertProp_preserves (u : SimpleUser) (ps : List PropName)
    (m : PropName → String → IndexEntry) (p' : PropName) (c' : String)
    (h : m p' c' ≠ .unset) : (ps.foldl (insertProp u) m) p' c' ≠ .unset := by
  induction ps generalizing m with
  | nil => exact h
  | cons q qs ih => exact ih _ (insertProp_preserves_ne_unset u m q p' c' h)

/-- Inserting a user leaves every (property, key) position of that user
non-`unset`. -/
theorem insertUser_self_ne_unset (m : PropName → String → IndexEntry)
    (u : SimpleUser) (p : PropName) :
    insertUser m u p (indexKey (u.get p)) ≠ .unset := by
  have hmem : p ∈ propList := by cases p <;> decide
  unfold insertUser
  clear hmem
  have main : ∀ (ps : List PropName) (m : PropName → String → IndexEntry),
      p ∈ ps → (ps.foldl (insertProp u) m) p (indexKey (u.get p)) ≠ .unset := by
    intro ps
    induction ps with
    | nil => intro m h; cases h
    | cons q qs ih =>
      intro m h
      rcases List.mem_cons.mp h with hq | hqs
      · subst hq
        exact foldl_insertProp_preserves u qs _ p _ (insertProp_self_ne_unset u m p)
      · exact ih _ hqs
  exact main propList m (by cases p <;> decide)

/-- Preservation: `insertUser` keeps non-`unset` entries non-`unset`. -/
theorem insertUser_preserves (m : PropName → String → IndexEntry)
    (u : SimpleUser) (p : PropName) (c : String) (h : m p c ≠ .unset) :
    insertUser m u p c ≠ .unset := by
  unfold insertUser
  exact foldl_insertProp_preserves u propList m p c h

/-- Folding users into an index leaves a user's own (property, key)
position non-`unset` as soon as the user is in the folded list or the
position was already non-`unset`. -/
theorem foldl_insertUser_ne_unset (users : List SimpleUser)
    (m : PropName → String → IndexEntry) (u : SimpleUser) (p : PropName)
    (h : u ∈ users ∨ m p (indexKey (u.get p)) ≠ .unset) :
    (users.foldl insertUser m) p (indexKey (u.get p)) ≠ .unset := by
  induction users generalizing m with
  | nil =>
    rcases h with h | h
    · cases h
    · exact h
  | cons v vs ih =>
    rcases h with h | h
    · rcases List.mem_cons.mp h with hv | hvs
      · subst hv
        exact ih _ (Or.inr (insertUser_self_ne_unset m u p))
      · exact ih _ (Or.inl hvs)
    · exact ih _ (Or.inr (insertUser_preserves m v p _ h))

/-- C7 (amended): **every** field of every identity — blank or not, elided
(`undefined`) or not — produces a Field Index entry: the entry at
`(p, indexKey (u.get p))` is never absent once `u` has been inserted. -/
theorem c7_every_field_indexed (users : List SimpleUser) (u : SimpleUser)
    (p : PropName) (hu : u ∈ users) :
    genPropToCellToUser users p (indexKey (u.get p)) ≠ .unset :=
  foldl_insertUser_ne_unset users _ u p (Or.inl hu)

/-- Witness for the amended C7 at a concrete input: a single-user roster
with a blank name, probed at the blank `fullName` key. -/
theorem c7_every_field_indexed_witness :
    blankNameSimple ∈ [blankNameSimple]
    ∧ genPropToCellToUser [blankNameSimple] .fullName
        (indexKey (blankNameSimple.get .fullName)) ≠ .unset :=
  ⟨by decide, c7_every_field_indexed [blankNameSimple] blankNameSimple .fullName (by decide)⟩

/-! ## C10: classification of all-blank columns -/

/-- A two-column table whose first column is entirely blank and whose
second column keeps both rows alive through the blank-row filter of
`preProcess/csv.js`, matched against the single-student roster whose
`fullName` is blank. -/
def blankColOpts : Opts :=
  { csv := { headers := ["h", "k"], rows := [["", "x"], ["", "y"]] }
    students := [blankNameRaw] }

/-- C10 (counterexample): run through the full engine — its blank-row
filter included — an all-blank column need **not** be assigned the first
(roster, field) pair in enumeration order.  The second column keeps both
rows alive through pre-processing; the blank cells of column 0 then hit
the concrete index entry of the roster's blank `fullName` (see C7), and
the returned `colTypes` classifies column 0 as the student `name`
property, while the first enumerated pair is the student canvas id. -/
theorem c10_blank_column_counterexample :
    (∀ row ∈ blankColOpts.csv.rows, jsTrim (row.getD 0 "") = "")
    ∧ (matchCSV blankColOpts).resultOf.map (fun r => r.colTypes)
      = some [{ type := "student", property := some "name" },
              { type := "student", property := some "canvas-id" }]
    ∧ propList.head? = some PropName.canvasId
    ∧ propNameMap PropName.canvasId = "canvas-id"
    ∧ ("name" : String) ≠ "canvas-id" := by
  refine ⟨?_, ?_, ?_, ?_, ?_⟩ <;> decide

/-- A column whose cells all trim blank is classified with some non-`data`
type: every candidate's acceptance bar `⌊0.4 × numNonempty⌋` is 0, which
every score (zero included) meets, so the best-scoring candidate is
accepted. -/
theorem classifyColumns_blank_not_data (students teachingTeamMembers : List SimpleUser)
    (headers : List String) (rows : List (List String)) (c : ℕ)
    (hc : c < headers.length) (hne : students ≠ [] ∨ teachingTeamMembers ≠ [])
    (hblank : ∀ row ∈ rows, jsTrim (row.getD c "") = "") :
    ((classifyColumns students teachingTeamMembers headers rows).getD c
      { type := .data, prop := none }).type ≠ .data := by
  have hgetD : (classifyColumns students teachingTeamMembers headers rows).getD c
      { type := .data, prop := none }
      = classifyColumn (genPropToCellToUser students)
          (genPropToCellToUser teachingTeamMembers)
          (indexProps students) (indexProps teachingTeamMembers)
          (rows.map (fun row => row.getD c "")) := by
    unfold classifyColumns
    rw [List.getD_eq_getElem?_getD, List.getElem?_map, List.getElem?_range hc]
    rfl
  rw [hgetD]
  unfold classifyColumn
  have hzero : (rows.map (fun row => row.getD c "")).countP
      (fun cell => decide ((jsTrim cell).length > 0)) = 0 := by
    rw [List.countP_eq_zero]
    intro cell hcell
    rcases List.mem_map.mp hcell with ⟨row, hrow, rfl⟩
    have hb := hblank row hrow
    rw [List.getD_eq_getElem?_getD] at hb
    simp [hb]
  have helem : ∀ e ∈ (indexProps students).map
        (typeDataFor .student (genPropToCellToUser students)
          (rows.map (fun row => row.getD c "")))
      ++ (indexProps teachingTeamMembers).map
        (typeDataFor .teachingTeamMember (genPropToCellToUser teachingTeamMembers)
          (rows.map (fun row => row.getD c ""))),
      e.minToMatch = 0 ∧ e.type ≠ .data := by
    intro e he
    rcases List.mem_append.mp he with he | he <;>
      rcases List.mem_map.mp he with ⟨p, _, rfl⟩ <;>
      exact ⟨by simp only [typeDataFor]; rw [hzero], by simp [typeDataFor]⟩
  have htdne : (indexProps students).map
        (typeDataFor .student (genPropToCellToUser students)
          (rows.map (fun row => row.getD c "")))
      ++ (indexProps teachingTeamMembers).map
        (typeDataFor .teachingTeamMember (genPropToCellToUser teachingTeamMembers)
          (rows.map (fun row => row.getD c ""))) ≠ [] := by
    rcases hne with hne | hne
    · apply List.append_ne_nil_of_left_ne_nil
      have hpropsne : indexProps students = propList := by
        unfold indexProps
        simp [List.isEmpty_iff, hne]
      rw [hpropsne]
      simp [propList]
    · apply List.append_ne_nil_of_right_ne_nil
      have hpropsne : indexProps teachingTeamMembers = propList := by
        unfold indexProps
        simp [List.isEmpty_iff, hne]
      rw [hpropsne]
      simp [propList]
  rcases hsort : sortJS typeDataLe ((indexProps students).map
        (typeDataFor .student (genPropToCellToUser students)
          (rows.map (fun row => row.getD c "")))
      ++ (indexProps teachingTeamMembers).map
        (typeDataFor .teachingTeamMember (genPropToCellToUser teachingTeamMembers)
          (rows.map (fun row => row.getD c "")))) with _ | ⟨b, t⟩
  · exfalso
    have hperm := sortJS_perm typeDataLe ((indexProps students).map
        (typeDataFor .student (genPropToCellToUser students)
          (rows.map (fun row => row.getD c "")))
      ++ (indexProps teachingTeamMembers).map
        (typeDataFor .teachingTeamMember (genPropToCellToUser teachingTeamMembers)
          (rows.map (fun row => row.getD c ""))))
    rw [hsort] at hperm
    exact htdne (hperm.nil_eq).symm
  · have hbmem := (sortJS_perm typeDataLe _).mem_iff.mp
      (hsort ▸ List.mem_cons_self b t)
    obtain ⟨hmin, hty⟩ := helem b hbmem
    simp only [hsort, List.head?_cons, hmin]
    simpa using hty

/-- Inversion of a successful run: both rosters pre-processed, the guard
passed, and the result is `matchCSVCore` on the normalized rosters. -/
theorem matchCSV_ok_inv (opts : Opts) (res : MatchResult)
    (h : matchCSV opts = .ok res) :
    ∃ students teachingTeamMembers,
      preProcessUsers opts.students = some students
      ∧ preProcessUsers opts.teachingTeamMembers = some teachingTeamMembers
      ∧ (students.isEmpty && teachingTeamMembers.isEmpty) = false
      ∧ res = matchCSVCore opts students teachingTeamMembers := by
  unfold matchCSV at h
  split at h
  · cases h
  · rename_i students hS
    split at h
    · cases h
    · rename_i teachingTeamMembers hT
      split at h
      · cases h
      · rename_i hg
        exact ⟨students, teachingTeamMembers, hS, hT, by simpa using hg,
          (MatchOutcome.ok.inj h).symm⟩

/-- C10 (amended): on every run that returns a result, a column all of
whose raw cells trim to the empty string is never classified as a data
column (its acceptance bar `⌊0.4 × numNonempty⌋` is 0, which every score
meets); the assigned (roster, field) pair is the best-scoring one —
blank-entry hits can win, see the counterexample — and is the first pair
in enumeration order only when all scores are zero. -/
theorem c10_blank_column_is_identity (opts : Opts) (res : MatchResult) (c : ℕ)
    (hOk : matchCSV opts = .ok res) (hc : c < opts.csv.headers.length)
    (hblank : ∀ row ∈ opts.csv.rows, jsTrim (row.getD c "") = "") :
    (res.colTypes.getD c { type := "data", property := none }).type ≠ "data" := by
  obtain ⟨students, teachingTeamMembers, hS, hT, hg, hres⟩ := matchCSV_ok_inv opts res hOk
  have hne : students ≠ [] ∨ teachingTeamMembers ≠ [] := by
    by_contra hcon
    push_neg at hcon
    obtain ⟨h1, h2⟩ := hcon
    subst h1
    subst h2
    simp at hg
  have hblank2 : ∀ row ∈ (preProcessCSV opts.csv).rows, jsTrim (row.getD c "") = "" := by
    intro row hrow
    exact hblank row (List.mem_of_mem_filter (List.mem_of_mem_filter hrow))
  have hnotdata := classifyColumns_blank_not_data students teachingTeamMembers
    opts.csv.headers (preProcessCSV opts.csv).rows c hc hne hblank2
  have hlen : c < (classifyColumns students teachingTeamMembers opts.csv.headers
      (preProcessCSV opts.csv).rows).length := by
    unfold classifyColumns
    simpa using hc
  have hct : res.colTypes
      = (classifyColumns students teachingTeamMembers opts.csv.headers
          (preProcessCSV opts.csv).rows).map
        (fun t => ({ type := colTypeName t.type, property := t.prop.map propNameMap } :
          ColTypeOut)) := by
    subst hres
    rfl
  rw [List.getD_eq_getElem?_getD, List.getElem?_eq_getElem hlen,
    Option.getD_some] at hnotdata
  rw [hct, List.getD_eq_getElem?_getD, List.getElem?_map,
    List.getElem?_eq_getElem hlen]
  show colTypeName ((classifyColumns students teachingTeamMembers opts.csv.headers
      (preProcessCSV opts.csv).rows)[c]).type ≠ "data"
  cases hx : ((classifyColumns students teachingTeamMembers opts.csv.headers
      (preProcessCSV opts.csv).rows)[c]).type
  · exact absurd hx hnotdata
  · decide
  · decide

/-- Witness for the amended C10 at a concrete run: the engine on the
two-column table (blank first column, row-preserving second column)
returns a result whose column 0 is not a data column. -/
theorem c10_blank_column_is_identity_witness :
    matchCSV blankColOpts = .ok (matchCSVCore blankColOpts [blankNameSimple] [])
    ∧ 0 < blankColOpts.csv.headers.length
    ∧ (∀ row ∈ blankColOpts.csv.rows, jsTrim (row.getD 0 "") = "")
    ∧ ((matchCSVCore blankColOpts [blankNameSimple] []).colTypes.getD 0
        { type := "data", property := none }).type ≠ "data" :=
  ⟨by decide, by decide, by decide,
    c10_blank_column_is_identity blankColOpts
      (matchCSVCore blankColOpts [blankNameSimple] []) 0 (by decide) (by decide)
      (by decide)⟩

/-! ## C5: which configuration errors abort the run -/

/-- A simple one-student roster used by several run-level scenarios. -/
def aliceRaw : RawUser := mkRawUser 1 "alice" "sa" "ia" "la" "ea"

/-- Options with a malformed expected-count policy value. -/
def bananaOpts : Opts :=
  { csv := { headers := ["name"], rows := [["alice"]] }
    students := [aliceRaw]
    numStudentsPerRow := .str "banana" }

/-- C5 (counterexample): a malformed expected-count policy value does
**not** abort the run.  With `numStudentsPerRow = "banana"` the engine
validates nothing, processes the table, and returns a complete result
(the malformed value simply fails every strict-equality count check). -/
theorem c5_malformed_policy_does_not_abort :
    bananaOpts.numStudentsPerRow = .str "banana"
    ∧ (matchCSV bananaOpts).resultOf.isSome = true := by
  refine ⟨rfl, ?_⟩
  decide

/-- A run whose rosters pre-process successfully and are not both empty
returns `matchCSVCore`. -/
theorem matchCSV_run (opts : Opts) (students teachingTeamMembers : List SimpleUser)
    (hS : preProcessUsers opts.students = some students)
    (hT : preProcessUsers opts.teachingTeamMembers = some teachingTeamMembers)
    (hguard : (students.isEmpty && teachingTeamMembers.isEmpty) = false) :
    matchCSV opts = .ok (matchCSVCore opts students teachingTeamMembers) := by
  unfold matchCSV
  rw [hS, hT]
  simp [hguard]

/-- C5 (amended): the engine aborts before any row processing iff **no
identities are supplied in either roster** — the only configuration error it
checks; on every input whose rosters are not both empty (and on which the
normalizer terminates, see C8) it processes the whole table and returns a
complete result.  Malformed expected-count values flow through
unvalidated. -/
theorem c5_only_empty_rosters_abort :
    (∀ opts : Opts, opts.students = [] → opts.teachingTeamMembers = [] →
      matchCSV opts = .err "No users to match with, or all users included are empty")
    ∧ (∀ (opts : Opts) (students teachingTeamMembers : List SimpleUser),
        preProcessUsers opts.students = some students →
        preProcessUsers opts.teachingTeamMembers = some teachingTeamMembers →
        ¬(students.isEmpty = true ∧ teachingTeamMembers.isEmpty = true) →
        (matchCSV opts).resultOf.isSome = true) := by
  constructor
  · intro opts h1 h2
    unfold matchCSV
    rw [h1, h2]
    rfl
  · intro opts students teachingTeamMembers hS hT hne
    have hguard : (students.isEmpty && teachingTeamMembers.isEmpty) = false := by
      cases h1 : students.isEmpty <;> cases h2 : teachingTeamMembers.isEmpty <;>
        simp_all
    rw [matchCSV_run opts students teachingTeamMembers hS hT hguard]
    rfl

/-- Witness for the amended C5: both directions at concrete inputs — the
empty-roster run throws, and the malformed-policy run returns a result. -/
theorem c5_only_empty_rosters_abort_witness :
    matchCSV { csv := { headers := ["name"], rows := [["alice"]] } }
      = .err "No users to match with, or all users included are empty"
    ∧ (matchCSV bananaOpts).resultOf.isSome = true :=
  ⟨c5_only_empty_rosters_abort.1 _ rfl rfl,
    c5_only_empty_rosters_abort.2 bananaOpts _ _ rfl rfl (by decide)⟩

/-! ## C4: the auto-detected expected count -/

/-- An element paired by `enum` is an element of the list. -/
theorem mem_of_mem_enumPairs {α : Type} {l : List α} {i : ℕ} {a : α}
    (h : (i, a) ∈ l.enum) : a ∈ l :=
  List.getElem?_mem (List.mem_enum_iff_getElem?.mp h)

/-- A `filterMap` with a function that answers on every element keeps the
length. -/
theorem length_filterMap_of_all_some {α β : Type} (f : α → Option β) (l : List α)
    (h : ∀ a ∈ l, (f a).isSome = true) : (l.filterMap f).length = l.length := by
  induction l with
  | nil => rfl
  | cons a as ih =>
    have ha := h a (List.mem_cons_self a as)
    rcases hfa : f a with _ | b
    · rw [hfa] at ha; cases ha
    · simp only [List.filterMap_cons, hfa, List.length_cons]
      rw [ih (fun x hx => h x (List.mem_cons_of_mem a hx))]

def bobRaw : RawUser := mkRawUser 2 "bob" "sb" "ib" "lb" "eb"

def carolRaw : RawUser := mkRawUser 3 "carol" "sc" "ic" "lc" "ec"

def daveRaw : RawUser := mkRawUser 4 "dave" "sd" "id4" "ld" "ed"

def eveRaw : RawUser := mkRawUser 5 "eve" "se" "ie" "le" "ee"

/-- A five-student roster and a five-row table whose per-row student match
counts are `[1, 1, 1, 2, 0]` (row 3 matches `dave` by name and `eve` by
login; row 4 matches nobody). -/
def autoCountOpts : Opts :=
  { csv := { headers := ["name", "partner login"]
             rows := [["alice", ""], ["bob", ""], ["carol", ""],
                      ["dave", "le"], ["zzz", ""]] }
    students := [aliceRaw, bobRaw, carolRaw, daveRaw, eveRaw] }

/-- C4 (confirmed): with the auto policy, the expected count is the rounded
mean of the per-row match counts over exactly the rows with at least one
match in either roster.  Concretely, per-row counts `[1,1,1,2,0]` (the
0-row matching in neither roster) give `round((1+1+1+2)/4) = 1`, the
count-1 rows are accepted and the others rejected; and in general, when no
row has a match in either roster the auto policy resolves to `NaN`, the run
still returns a complete result, and every row is rejected. -/
theorem c4_auto_expected_count :
    ((preProcessUsers autoCountOpts.students).map (fun l =>
        (pipelineRowMatches autoCountOpts l []).map (fun rm => rm.students.length))
      = some [1, 1, 1, 2, 0]
    ∧ (matchCSV autoCountOpts).resultOf.map
        (fun r => (r.numStudentsPerRow, r.matchedRows.map (·.rowIndex),
          r.unmatchedRows.map (·.rowIndex)))
      = some (.num 1, [0, 1, 2], [3, 4]))
    ∧ (∀ (opts : Opts) (students teachingTeamMembers : List SimpleUser),
        preProcessUsers opts.students = some students →
        preProcessUsers opts.teachingTeamMembers = some teachingTeamMembers →
        (students.isEmpty && teachingTeamMembers.isEmpty) = false →
        defaultPolicy opts.numStudentsPerRow = AUTO_DETECT →
        (∀ rm ∈ pipelineRowMatches opts students teachingTeamMembers,
          rm.students = [] ∧ rm.teachingTeamMembers = []) →
        ∃ res, matchCSV opts = .ok res ∧ res.numStudentsPerRow = .nan
          ∧ res.matchedRows = []
          ∧ res.unmatchedRows.length = (preProcessCSV opts.csv).rows.length) := by
  constructor
  · exact ⟨by decide, by decide⟩
  · intro opts students teachingTeamMembers hS hT hguard hAuto hNone
    have hcounted : pipelineCounted opts students teachingTeamMembers = [] := by
      unfold pipelineCounted
      rw [List.filter_eq_nil_iff]
      intro rm hrm
      obtain ⟨h1, h2⟩ := hNone rm hrm
      simp [h1, h2]
    have hnan : pipelineNumS opts students teachingTeamMembers = .nan := by
      unfold pipelineNumS
      rw [hcounted, hAuto]
      simp [resolveExpected, AUTO_DETECT, jsStrictEq]
    have herr : ∀ rm ∈ pipelineRowMatches opts students teachingTeamMembers,
        (rowErrors (pipelineIsDisq opts students teachingTeamMembers)
          (pipelineNumS opts students teachingTeamMembers)
          (pipelineNumT opts students teachingTeamMembers) rm).isEmpty = false := by
      intro rm hrm
      obtain ⟨h1, h2⟩ := hNone rm hrm
      unfold rowErrors
      rw [h1, h2, hnan]
      simp [genNumPerRowErrorMessage, jsStrictEq]
    have hpart1 : (pipelineParts opts students teachingTeamMembers).1 = [] := by
      unfold pipelineParts partitionRows
      rw [List.filterMap_eq_nil_iff]
      intro irm hirm
      simp only [herr irm.2 (mem_of_mem_enumPairs hirm)]
      rfl
    have hpart2 : (pipelineParts opts students teachingTeamMembers).2.length
        = (preProcessCSV opts.csv).rows.length := by
      unfold pipelineParts partitionRows
      rw [length_filterMap_of_all_some]
      · rw [List.enum_length]
        unfold pipelineRowMatches
        rw [List.length_map]
      · intro irm hirm
        simp only [herr irm.2 (mem_of_mem_enumPairs hirm)]
        rfl
    refine ⟨matchCSVCore opts students teachingTeamMembers,
      matchCSV_run opts students teachingTeamMembers hS hT hguard, hnan, ?_, ?_⟩
    · show ((pipelineParts opts students teachingTeamMembers).1.map _) = []
      rw [hpart1]
      rfl
    · show ((pipelineParts opts students teachingTeamMembers).2.map _).length = _
      rw [List.length_map, hpart2]

/-- Options for the zero-match half of C4: one student, one row matching
nobody. -/
def noMatchOpts : Opts :=
  { csv := { headers := ["h"], rows := [["zzz"]] }, students := [aliceRaw] }

/-- Witness for the general part of C4: a one-student roster and a table
whose single row matches nobody. -/
theorem c4_auto_expected_count_witness :
    preProcessUsers noMatchOpts.students = some (toSimpleUsers [aliceRaw])
    ∧ (∃ res, matchCSV noMatchOpts = .ok res ∧ res.numStudentsPerRow = .nan
        ∧ res.matchedRows = []
        ∧ res.unmatchedRows.length = (preProcessCSV noMatchOpts.csv).rows.length) :=
  ⟨by decide,
    c4_auto_expected_count.2 noMatchOpts (toSimpleUsers [aliceRaw]) []
      rfl rfl (by decide) rfl (by decide)⟩

/-! ## C3: table-wide retroactive disqualification -/

/-- An `owner` entry written by `insertProp` is the inserted user or was
already present. -/
theorem insertProp_owner (v : SimpleUser) (m : PropName → String → IndexEntry)
    (p p' : PropName) (c' : String) (u : SimpleUser)
    (h : insertProp v m p p' c' = .owner u) : u = v ∨ m p' c' = .owner u := by
  unfold insertProp at h
  by_cases hp : p' = p
  · subst hp
    by_cases hc : c' = indexKey (v.get p')
    · rw [if_pos rfl, if_pos hc] at h
      rcases hm : m p' (indexKey (v.get p')) with _ | _ | w <;> rw [hm] at h
      · exact Or.inl (IndexEntry.owner.inj h).symm
      · exact Or.inl (IndexEntry.owner.inj h).symm
      · cases h
    · rw [if_pos rfl, if_neg hc] at h
      exact Or.inr h
  · rw [if_neg hp] at h
    exact Or.inr h

/-- An `owner` entry after inserting a whole user is that user or was
already present. -/
theorem insertUser_owner (m : PropName → String → IndexEntry) (v : SimpleUser)
    (p : PropName) (c : String) (u : SimpleUser)
    (h : insertUser m v p c = .owner u) : u = v ∨ m p c = .owner u := by
  unfold insertUser at h
  have main : ∀ (ps : List PropName) (m : PropName → String → IndexEntry),
      (ps.foldl (insertProp v) m) p c = .owner u → u = v ∨ m p c = .owner u := by
    intro ps
    induction ps with
    | nil => intro m h; exact Or.inr h
    | cons q qs ih =>
      intro m h
      rcases ih _ h with h1 | h1
      · exact Or.inl h1
      · exact insertProp_owner v m q p c u h1
  exact main propList m h

/-- Any concrete user held by the Field Index is a member of the roster it
was built from. -/
theorem genPropToCellToUser_owner_mem (users : List SimpleUser) (p : PropName)
    (c : String) (u : SimpleUser)
    (h : genPropToCellToUser users p c = .owner u) : u ∈ users := by
  unfold genPropToCellToUser at h
  have main : ∀ (l : List SimpleUser) (m : PropName → String → IndexEntry),
      (l.foldl insertUser m) p c = .owner u → u ∈ l ∨ m p c = .owner u := by
    intro l
    induction l with
    | nil => intro m h; exact Or.inr h
    | cons v vs ih =>
      intro m h
      rcases ih _ h with h1 | h1
      · exact Or.inl (List.mem_cons_of_mem v h1)
      · rcases insertUser_owner m v p c u h1 with h2 | h2
        · exact Or.inl (h2 ▸ List.mem_cons_self v vs)
        · exact Or.inr h2
  rcases main users _ h with h1 | h1
  · exact h1
  · cases h1

/-- A `getMatch` hit on a roster's index is a member of that roster. -/
theorem getMatch_mem (users : List SimpleUser) (p : PropName) (c : String)
    (u : SimpleUser) (h : getMatch (genPropToCellToUser users) p c = some u) :
    u ∈ users := by
  unfold getMatch at h
  rcases hidx : genPropToCellToUser users p c with _ | _ | w <;> rw [hidx] at h
  · cases h
  · cases h
  · exact (Option.some.inj h) ▸ genPropToCellToUser_owner_mem users p c w hidx

/-- Membership after a JS `Set.add`. -/
theorem mem_addUser {l : List SimpleUser} {u v : SimpleUser} :
    v ∈ addUser l u ↔ v ∈ l ∨ v = u := by
  unfold addUser
  by_cases h : u ∈ l
  · simp only [if_pos h]
    constructor
    · exact Or.inl
    · rintro (hv | rfl)
      · exact hv
      · exact h
  · simp [if_neg h]

/-- JS `Set.add` keeps the list duplicate-free. -/
theorem addUser_nodup {l : List SimpleUser} {u : SimpleUser} (h : l.Nodup) :
    (addUser l u).Nodup := by
  unfold addUser
  by_cases hm : u ∈ l
  · simpa [if_pos hm] using h
  · rw [if_neg hm]
    rw [List.nodup_append]
    refine ⟨h, List.nodup_singleton u, ?_⟩
    intro x hx hxu
    exact hm ((List.mem_singleton.mp hxu) ▸ hx)

/-- A student accumulated by one matching step is already accumulated or a
`getMatch` hit on the student index. -/
theorem rowMatchStep_students_mem (idxS idxT : PropName → String → IndexEntry)
    (colTypes : List TypeAndProp) (acc : RowMatch) (ci : ℕ × String)
    {v : SimpleUser} (h : v ∈ (rowMatchStep idxS idxT colTypes acc ci).students) :
    v ∈ acc.students ∨ ∃ p c, getMatch idxS p c = some v := by
  simp only [rowMatchStep] at h
  split at h
  · exact Or.inl h
  · rename_i p hty hp
    split at h
    · rename_i u hu
      rcases mem_addUser.mp h with h1 | rfl
      · exact Or.inl h1
      · exact Or.inr ⟨p, ci.2, hu⟩
    · exact Or.inl h
  · exact Or.inl h
  · split at h
    · exact Or.inl h
    · exact Or.inl h
  · exact Or.inl h

/-- A teaching team member accumulated by one matching step is already
accumulated or a `getMatch` hit on the teaching-team index. -/
theorem rowMatchStep_ttms_mem (idxS idxT : PropName → String → IndexEntry)
    (colTypes : List TypeAndProp) (acc : RowMatch) (ci : ℕ × String)
    {v : SimpleUser}
    (h : v ∈ (rowMatchStep idxS idxT colTypes acc ci).teachingTeamMembers) :
    v ∈ acc.teachingTeamMembers ∨ ∃ p c, getMatch idxT p c = some v := by
  simp only [rowMatchStep] at h
  split at h
  · exact Or.inl h
  · split at h
    · exact Or.inl h
    · exact Or.inl h
  · exact Or.inl h
  · rename_i p hty hp
    split at h
    · rename_i u hu
      rcases mem_addUser.mp h with h1 | rfl
      · exact Or.inl h1
      · exact Or.inr ⟨p, ci.2, hu⟩
    · exact Or.inl h
  · exact Or.inl h

/-- Every student matched in a row is a member of the student roster. -/
theorem computeRowMatch_students_mem (students teachingTeamMembers : List SimpleUser)
    (colTypes : List TypeAndProp) (row : List String) {v : SimpleUser}
    (h : v ∈ (computeRowMatch (genPropToCellToUser students)
      (genPropToCellToUser teachingTeamMembers) colTypes row).students) :
    v ∈ students := by
  unfold computeRowMatch at h
  have main : ∀ (l : List (ℕ × String)) (acc : RowMatch),
      (∀ x ∈ acc.students, x ∈ students) →
      ∀ x ∈ (l.foldl (rowMatchStep (genPropToCellToUser students)
        (genPropToCellToUser teachingTeamMembers) colTypes) acc).students,
      x ∈ students := by
    intro l
    induction l with
    | nil => intro acc hacc x hx; exact hacc x hx
    | cons ci cis ih =>
      intro acc hacc x hx
      refine ih _ ?_ x hx
      intro y hy
      rcases rowMatchStep_students_mem _ _ _ _ _ hy with h1 | ⟨p, c, hpc⟩
      · exact hacc y h1
      · exact getMatch_mem students p c y hpc
  exact main row.enum _ (fun x hx => absurd hx (List.not_mem_nil x)) v h

/-- Every teaching team member matched in a row is a member of that
roster. -/
theorem computeRowMatch_ttms_mem (students teachingTeamMembers : List SimpleUser)
    (colTypes : List TypeAndProp) (row : List String) {v : SimpleUser}
    (h : v ∈ (computeRowMatch (genPropToCellToUser students)
      (genPropToCellToUser teachingTeamMembers) colTypes row).teachingTeamMembers) :
    v ∈ teachingTeamMembers := by
  unfold computeRowMatch at h
  have main : ∀ (l : List (ℕ × String)) (acc : RowMatch),
      (∀ x ∈ acc.teachingTeamMembers, x ∈ teachingTeamMembers) →
      ∀ x ∈ (l.foldl (rowMatchStep (genPropToCellToUser students)
        (genPropToCellToUser teachingTeamMembers) colTypes) acc).teachingTeamMembers,
      x ∈ teachingTeamMembers := by
    intro l
    induction l with
    | nil => intro acc hacc x hx; exact hacc x hx
    | cons ci cis ih =>
      intro acc hacc x hx
      refine ih _ ?_ x hx
      intro y hy
      rcases rowMatchStep_ttms_mem _ _ _ _ _ hy with h1 | ⟨p, c, hpc⟩
      · exact hacc y h1
      · exact getMatch_mem teachingTeamMembers p c y hpc
  exact main row.enum _ (fun x hx => absurd hx (List.not_mem_nil x)) v h

/-- The matching step keeps the per-row student set duplicate-free. -/
theorem rowMatchStep_students_nodup (idxS idxT : PropName → String → IndexEntry)
    (colTypes : List TypeAndProp) (acc : RowMatch) (ci : ℕ × String)
    (h : acc.students.Nodup) :
    (rowMatchStep idxS idxT colTypes acc ci).students.Nodup := by
  simp only [rowMatchStep]
  split
  · exact h
  · split
    · exact addUser_nodup h
    · exact h
  · exact h
  · split
    · exact h
    · exact h
  · exact h

/-- One `disqStep` leaves the entries of every other key untouched. -/
theorem disqStep_other (type : String)
    (st : (String → Bool) × (String → Option String)) (v : SimpleUser) (k : String)
    (hk : jsValToString v.canvasId ≠ k) :
    (disqStep type st v).1 k = st.1 k ∧ (disqStep type st v).2 k = st.2 k := by
  simp only [disqStep]
  by_cases hs : st.1 (jsValToString v.canvasId) = true
  · rw [if_pos hs]
    refine ⟨rfl, ?_⟩
    show (if k = jsValToString v.canvasId then _ else st.2 k) = st.2 k
    rw [if_neg (fun h => hk h.symm)]
  · rw [if_neg hs]
    refine ⟨?_, rfl⟩
    show (if k = jsValToString v.canvasId then true else st.1 k) = st.1 k
    rw [if_neg (fun h => hk h.symm)]

/-- Effect of `disqStep` at the stepped user's own key: the key becomes seen, and the
message is recorded exactly if the key was seen before. -/
theorem disqStep_self (type : String)
    (st : (String → Bool) × (String → Option String)) (u : SimpleUser) :
    (disqStep type st u).1 (jsValToString u.canvasId) = true
    ∧ (disqStep type st u).2 (jsValToString u.canvasId)
      = (if st.1 (jsValToString u.canvasId) = true then some (disqMessage type u)
         else st.2 (jsValToString u.canvasId)) := by
  simp only [disqStep]
  by_cases hs : st.1 (jsValToString u.canvasId) = true
  · rw [if_pos hs, if_pos hs]
    refine ⟨hs, ?_⟩
    show (if jsValToString u.canvasId = jsValToString u.canvasId then _ else _) = _
    rw [if_pos rfl]
  · rw [if_neg hs, if_neg hs]
    refine ⟨?_, rfl⟩
    show (if jsValToString u.canvasId = jsValToString u.canvasId then true else _) = true
    rw [if_pos rfl]

/-- Closed form of one row's scan at the key of a user `u`, when `u` is the
only user of the row carrying that key and the row has no duplicates: the
key ends seen iff it was seen or `u` is in the row, and the message is
written iff the key was already seen and `u` is in the row. -/
theorem foldl_disqStep_closed (type : String) (u : SimpleUser) (L : List SimpleUser)
    (hA : ∀ v ∈ L, jsValToString v.canvasId = jsValToString u.canvasId → v = u)
    (hB : L.Nodup) (st : (String → Bool) × (String → Option String)) :
    (L.foldl (disqStep type) st).1 (jsValToString u.canvasId)
      = (st.1 (jsValToString u.canvasId) || decide (u ∈ L))
    ∧ (L.foldl (disqStep type) st).2 (jsValToString u.canvasId)
      = (if st.1 (jsValToString u.canvasId) = true ∧ u ∈ L
         then some (disqMessage type u)
         else st.2 (jsValToString u.canvasId)) := by
  induction L generalizing st with
  | nil => simp
  | cons v rest ih =>
    have hArest : ∀ w ∈ rest, jsValToString w.canvasId = jsValToString u.canvasId → w = u :=
      fun w hw => hA w (List.mem_cons_of_mem v hw)
    have hBrest : rest.Nodup := (List.nodup_cons.mp hB).2
    by_cases hkv : jsValToString v.canvasId = jsValToString u.canvasId
    · have hv : v = u := hA v (List.mem_cons_self v rest) hkv
      subst hv
      have hnotin : v ∉ rest := (List.nodup_cons.mp hB).1
      obtain ⟨ihs, ihd⟩ := ih hArest hBrest (disqStep type st v)
      obtain ⟨hs1, hs2⟩ := disqStep_self type st v
      constructor
      · show (rest.foldl (disqStep type) (disqStep type st v)).1 _ = _
        rw [ihs, hs1]
        simp [List.mem_cons]
      · show (rest.foldl (disqStep type) (disqStep type st v)).2 _ = _
        rw [ihd, hs1, hs2]
        rw [if_neg (fun hc => hnotin hc.2)]
        by_cases hseen : st.1 (jsValToString v.canvasId) = true
        · rw [if_pos hseen, if_pos ⟨hseen, List.mem_cons_self v rest⟩]
        · rw [if_neg hseen, if_neg (fun hc => hseen hc.1)]
    · have hvu : v ≠ u := fun h => hkv (by rw [h])
      have hmem : u ∈ v :: rest ↔ u ∈ rest := by
        constructor
        · intro h
          rcases List.mem_cons.mp h with h1 | h1
          · exact absurd h1.symm hvu
          · exact h1
        · exact List.mem_cons_of_mem v
      obtain ⟨ho1, ho2⟩ := disqStep_other type st v (jsValToString u.canvasId)
        (fun h => hkv h)
      obtain ⟨ihs, ihd⟩ := ih hArest hBrest (disqStep type st v)
      constructor
      · show (rest.foldl (disqStep type) (disqStep type st v)).1 _ = _
        rw [ihs, ho1]
        congr 1
        exact (decide_eq_decide.mpr hmem).symm
      · show (rest.foldl (disqStep type) (disqStep type st v)).2 _ = _
        rw [ihd, ho1, ho2]
        exact if_congr (and_congr_right (fun _ => hmem.symm)) rfl rfl

/-- Closed form of the whole scan at the key of `u` over all rows: with `u`
the only carrier of its key and duplicate-free rows, the final dictionary
holds the disqualification message for `u` exactly when `u` occurs in at
least two rows (or was seen before the scan and occurs at all). -/
theorem foldl_rows_disq_closed (type : String) (u : SimpleUser)
    (lists : List (List SimpleUser))
    (hA : ∀ L ∈ lists, ∀ v ∈ L, jsValToString v.canvasId = jsValToString u.canvasId → v = u)
    (hB : ∀ L ∈ lists, L.Nodup)
    (st : (String → Bool) × (String → Option String)) :
    (lists.foldl (fun st L => L.foldl (disqStep type) st) st).1 (jsValToString u.canvasId)
      = (st.1 (jsValToString u.canvasId)
          || decide (0 < lists.countP (fun L => decide (u ∈ L))))
    ∧ (lists.foldl (fun st L => L.foldl (disqStep type) st) st).2 (jsValToString u.canvasId)
      = (if (st.1 (jsValToString u.canvasId) = true
              ∧ 0 < lists.countP (fun L => decide (u ∈ L)))
            ∨ 2 ≤ lists.countP (fun L => decide (u ∈ L))
         then some (disqMessage type u)
         else st.2 (jsValToString u.canvasId)) := by
  induction lists generalizing st with
  | nil => simp
  | cons L rest ih =>
    have hAL : ∀ v ∈ L, jsValToString v.canvasId = jsValToString u.canvasId → v = u :=
      hA L (List.mem_cons_self L rest)
    have hBL : L.Nodup := hB L (List.mem_cons_self L rest)
    have hArest : ∀ M ∈ rest, ∀ v ∈ M,
        jsValToString v.canvasId = jsValToString u.canvasId → v = u :=
      fun M hM => hA M (List.mem_cons_of_mem L hM)
    have hBrest : ∀ M ∈ rest, M.Nodup := fun M hM => hB M (List.mem_cons_of_mem L hM)
    obtain ⟨hs1, hs2⟩ := foldl_disqStep_closed type u L hAL hBL st
    obtain ⟨ihs, ihd⟩ := ih hArest hBrest (L.foldl (disqStep type) st)
    by_cases hu : u ∈ L
    · have hcc : (L :: rest).countP (fun M => decide (u ∈ M))
          = rest.countP (fun M => decide (u ∈ M)) + 1 := by
        rw [List.countP_cons]
        simp [hu]
      have hmid1 : (L.foldl (disqStep type) st).1 (jsValToString u.canvasId) = true := by
        rw [hs1]
        simp [hu]
      constructor
      · show (rest.foldl _ (L.foldl (disqStep type) st)).1 _ = _
        rw [ihs, hmid1, hcc]
        simp
      · show (rest.foldl _ (L.foldl (disqStep type) st)).2 _ = _
        rw [ihd, hmid1, hcc]
        by_cases hc : 0 < rest.countP (fun M => decide (u ∈ M))
        · rw [if_pos (Or.inl ⟨rfl, hc⟩), if_pos (Or.inr (by omega))]
        · rw [if_neg (by
            rintro (⟨_, h⟩ | h) <;> omega)]
          rw [hs2]
          by_cases hseen : st.1 (jsValToString u.canvasId) = true
          · rw [if_pos ⟨hseen, hu⟩, if_pos (Or.inl ⟨hseen, by omega⟩)]
          · rw [if_neg (fun hc2 => hseen hc2.1)]
            rw [if_neg (by
              rintro (⟨h1, _⟩ | h2)
              · exact hseen h1
              · omega)]
    · have hcc : (L :: rest).countP (fun M => decide (u ∈ M))
          = rest.countP (fun M => decide (u ∈ M)) := by
        rw [List.countP_cons]
        simp [hu]
      have hmid1 : (L.foldl (disqStep type) st).1 (jsValToString u.canvasId)
          = st.1 (jsValToString u.canvasId) := by
        rw [hs1]
        simp [hu]
      have hmid2 : (L.foldl (disqStep type) st).2 (jsValToString u.canvasId)
          = st.2 (jsValToString u.canvasId) := by
        rw [hs2, if_neg (fun hc2 => hu hc2.2)]
      constructor
      · show (rest.foldl _ (L.foldl (disqStep type) st)).1 _ = _
        rw [ihs, hmid1, hcc]
      · show (rest.foldl _ (L.foldl (disqStep type) st)).2 _ = _
        rw [ihd, hmid1, hmid2, hcc]

/-- One row's scan never touches the dictionary entry of a key carried by
none of the row's users. -/
theorem foldl_disqStep_untouched (type : String) (k : String) (L : List SimpleUser)
    (hk : ∀ v ∈ L, jsValToString v.canvasId ≠ k)
    (st : (String → Bool) × (String → Option String)) :
    (L.foldl (disqStep type) st).2 k = st.2 k := by
  induction L generalizing st with
  | nil => rfl
  | cons v rest ih =>
    have h2 := (disqStep_other type st v k (hk v (List.mem_cons_self v rest))).2
    exact (ih (fun w hw => hk w (List.mem_cons_of_mem v hw)) (disqStep type st v)).trans h2

/-- The whole scan never touches the dictionary entry of a key carried by
no user of any row. -/
theorem foldl_rows_disq_untouched (type : String) (k : String)
    (lists : List (List SimpleUser))
    (h : ∀ L ∈ lists, ∀ v ∈ L, jsValToString v.canvasId ≠ k)
    (st : (String → Bool) × (String → Option String)) :
    (lists.foldl (fun st L => L.foldl (disqStep type) st) st).2 k = st.2 k := by
  induction lists generalizing st with
  | nil => rfl
  | cons L rest ih =>
    have h1 := foldl_disqStep_untouched type k L (h L (List.mem_cons_self L rest)) st
    exact (ih (fun M hM => h M (List.mem_cons_of_mem L hM))
      (L.foldl (disqStep type) st)).trans h1

/-- A predicate holding at two distinct positions is counted at least
twice. -/
theorem two_le_countP_of_getElem {α : Type} (p : α → Bool) (l : List α) (i j : ℕ)
    (hi : i < l.length) (hj : j < l.length) (hij : i ≠ j)
    (hpi : p l[i] = true) (hpj : p l[j] = true) : 2 ≤ l.countP p := by
  induction l generalizing i j with
  | nil => exact absurd hi (Nat.not_lt_zero i)
  | cons a as ih =>
    match i, j, hij, hi, hj, hpi, hpj with
    | 0, 0, hij, _, _, _, _ => exact absurd rfl hij
    | 0, n + 1, _, hi, hj, hpi, hpj =>
      have hn : n < as.length := by simpa using hj
      have hpn : p as[n] = true := by simpa using hpj
      have h1 : 0 < as.countP p := List.countP_pos_iff.mpr ⟨as[n], List.getElem_mem hn, hpn⟩
      rw [List.countP_cons, if_pos (by simpa using hpi)]
      omega
    | m + 1, 0, _, hi, hj, hpi, hpj =>
      have hm : m < as.length := by simpa using hi
      have hpm : p as[m] = true := by simpa using hpi
      have h1 : 0 < as.countP p := List.countP_pos_iff.mpr ⟨as[m], List.getElem_mem hm, hpm⟩
      rw [List.countP_cons, if_pos (by simpa using hpj)]
      omega
    | m + 1, n + 1, hij, hi, hj, hpi, hpj =>
      have hmn : m ≠ n := fun h => hij (by rw [h])
      have h2 := ih m n (by simpa using hi) (by simpa using hj) hmn
        (by simpa using hpi) (by simpa using hpj)
      rw [List.countP_cons]
      omega

/-- In a list with pairwise-distinct `canvasId` keys, two members with the
same key are the same user. -/
theorem eq_of_pairwise_keys {l : List SimpleUser}
    (hl : l.Pairwise (fun a b => jsValToString a.canvasId ≠ jsValToString b.canvasId))
    {a b : SimpleUser} (ha : a ∈ l) (hb : b ∈ l)
    (hk : jsValToString a.canvasId = jsValToString b.canvasId) : a = b := by
  induction l with
  | nil => cases ha
  | cons x xs ih =>
    rcases List.pairwise_cons.mp hl with ⟨hx, hxs⟩
    rcases List.mem_cons.mp ha with rfl | ha' <;> rcases List.mem_cons.mp hb with hb1 | hb'
    · rw [hb1]
    · exact absurd hk (hx b hb')
    · exact absurd hk (by rw [hb1] at hk ⊢; exact fun h => (hx a ha') hk.symm)
    · exact ih hxs ha' hb'

/-- The per-row student match set is duplicate-free. -/
theorem computeRowMatch_students_nodup (idxS idxT : PropName → String → IndexEntry)
    (colTypes : List TypeAndProp) (row : List String) :
    (computeRowMatch idxS idxT colTypes row).students.Nodup := by
  unfold computeRowMatch
  have main : ∀ (l : List (ℕ × String)) (acc : RowMatch), acc.students.Nodup →
      (l.foldl (rowMatchStep idxS idxT colTypes) acc).students.Nodup := by
    intro l
    induction l with
    | nil => intro acc hacc; exact hacc
    | cons ci cis ih =>
      intro acc hacc
      exact ih _ (rowMatchStep_students_nodup idxS idxT colTypes acc ci hacc)
  exact main row.enum _ List.nodup_nil

/-- Rewriting `findDisqualified` as the rows-of-users scan over the picked lists. -/
theorem findDisqualified_eq_rows (type : String) (pick : RowMatch → List SimpleUser)
    (rowMatches : List RowMatch) (init : String → Option String) :
    findDisqualified type pick rowMatches init
      = ((rowMatches.map pick).foldl (fun st L => L.foldl (disqStep type) st)
          ((fun _ => false), init)).2 := by
  unfold findDisqualified
  rw [List.foldl_map]

/-- C3 (confirmed): with the student only-once policy active, an identity
matched in two or more distinct rows is disqualified table-wide: **every**
row whose match set contains it — including its first occurrence — lands in
the unmatched partition, with the disqualification message naming the
identity (via its full name) attached to that row's errors.  The rosters
are assumed to carry pairwise-distinct identifier keys, per the input
contract. -/
theorem c3_uniqueness_retroactive
    (opts : Opts) (students teachingTeamMembers : List SimpleUser)
    (hS : preProcessUsers opts.students = some students)
    (hT : preProcessUsers opts.teachingTeamMembers = some teachingTeamMembers)
    (hguard : (students.isEmpty && teachingTeamMembers.isEmpty) = false)
    (hOnce : opts.studentOnlyOnce = true)
    (hKeys : (students ++ teachingTeamMembers).Pairwise
      (fun a b => jsValToString a.canvasId ≠ jsValToString b.canvasId))
    (u : SimpleUser) (i j : ℕ) (hij : i ≠ j)
    (hilen : i < (pipelineRowMatches opts students teachingTeamMembers).length)
    (hjlen : j < (pipelineRowMatches opts students teachingTeamMembers).length)
    (hi : u ∈ ((pipelineRowMatches opts students teachingTeamMembers).getD i
      { students := [], teachingTeamMembers := [] }).students)
    (hj : u ∈ ((pipelineRowMatches opts students teachingTeamMembers).getD j
      { students := [], teachingTeamMembers := [] }).students) :
    ∀ k, (hk : k < (pipelineRowMatches opts students teachingTeamMembers).length) →
      u ∈ ((pipelineRowMatches opts students teachingTeamMembers).getD k
        { students := [], teachingTeamMembers := [] }).students →
      ∃ res, matchCSV opts = .ok res ∧
        ∃ r ∈ res.unmatchedRows, r.rowIndex = k
          ∧ disqMessage "student" u ∈ r.errors := by
  intro k hk huk
  obtain ⟨hSS, hTT, hST⟩ := List.pairwise_append.mp hKeys
  have hrmdef : pipelineRowMatches opts students teachingTeamMembers
      = (preProcessCSV opts.csv).rows.map
        (computeRowMatch (genPropToCellToUser students)
          (genPropToCellToUser teachingTeamMembers)
          (pipelineColTypes opts students teachingTeamMembers)) := rfl
  -- every member of any row's student set is in the student roster
  have hrowmem : ∀ rm ∈ pipelineRowMatches opts students teachingTeamMembers,
      ∀ v ∈ rm.students, v ∈ students := by
    intro rm hrm v hv
    rw [hrmdef] at hrm
    rcases List.mem_map.mp hrm with ⟨row, _, rfl⟩
    exact computeRowMatch_students_mem students teachingTeamMembers _ row hv
  have hrownodup : ∀ rm ∈ pipelineRowMatches opts students teachingTeamMembers,
      rm.students.Nodup := by
    intro rm hrm
    rw [hrmdef] at hrm
    rcases List.mem_map.mp hrm with ⟨row, _, rfl⟩
    exact computeRowMatch_students_nodup _ _ _ row
  have humem : u ∈ students := by
    refine hrowmem _ ?_ u hi
    rw [List.getD_eq_getElem _ _ hilen]
    exact List.getElem_mem hilen
  -- the uniqueness and nodup hypotheses for the scan's closed form
  have hA : ∀ L ∈ (pipelineRowMatches opts students teachingTeamMembers).map (·.students),
      ∀ v ∈ L, jsValToString v.canvasId = jsValToString u.canvasId → v = u := by
    intro L hL v hv hkey
    rcases List.mem_map.mp hL with ⟨rm, hrm, rfl⟩
    exact eq_of_pairwise_keys hSS (hrowmem rm hrm v hv) humem hkey
  have hB : ∀ L ∈ (pipelineRowMatches opts students teachingTeamMembers).map (·.students),
      L.Nodup := by
    intro L hL
    rcases List.mem_map.mp hL with ⟨rm, hrm, rfl⟩
    exact hrownodup rm hrm
  -- u occurs in at least two of the row student sets
  have hcount : 2 ≤ ((pipelineRowMatches opts students teachingTeamMembers).map
      (·.students)).countP (fun L => decide (u ∈ L)) := by
    have hil : i < ((pipelineRowMatches opts students teachingTeamMembers).map
        (·.students)).length := by
      rw [List.length_map]; exact hilen
    have hjl : j < ((pipelineRowMatches opts students teachingTeamMembers).map
        (·.students)).length := by
      rw [List.length_map]; exact hjlen
    refine two_le_countP_of_getElem _ _ i j hil hjl hij ?_ ?_
    · rw [List.getElem_map]
      rw [List.getD_eq_getElem _ _ hilen] at hi
      exact decide_eq_true hi
    · rw [List.getElem_map]
      rw [List.getD_eq_getElem _ _ hjlen] at hj
      exact decide_eq_true hj
  -- the student pass records the message
  have hdisq1 : findDisqualified "student" (·.students)
      (pipelineRowMatches opts students teachingTeamMembers) (fun _ => none)
      (jsValToString u.canvasId) = some (disqMessage "student" u) := by
    rw [findDisqualified_eq_rows]
    rw [(foldl_rows_disq_closed "student" u _ hA hB
      ((fun _ => false), fun _ => none)).2]
    rw [if_pos (Or.inr hcount)]
  -- the teaching-team pass (if any) never touches this key
  have hdisq : pipelineIsDisq opts students teachingTeamMembers
      (jsValToString u.canvasId) = some (disqMessage "student" u) := by
    simp only [pipelineIsDisq, hOnce, if_true]
    by_cases htm : opts.teachingTeamMemberOnlyOnce = true
    · rw [if_pos htm]
      rw [findDisqualified_eq_rows]
      rw [foldl_rows_disq_untouched "teaching team member" (jsValToString u.canvasId) _ ?_ _]
      · exact hdisq1
      · intro L hL v hv
        rcases List.mem_map.mp hL with ⟨rm, hrm, rfl⟩
        rw [hrmdef] at hrm
        rcases List.mem_map.mp hrm with ⟨row, _, rfl⟩
        have hvt : v ∈ teachingTeamMembers :=
          computeRowMatch_ttms_mem students teachingTeamMembers _ row hv
        exact fun hkey => (hST u humem v hvt) hkey.symm
    · rw [if_neg htm]
      exact hdisq1
  -- row k's error list contains the message
  have hmsg : disqMessage "student" u ∈ rowErrors
      (pipelineIsDisq opts students teachingTeamMembers)
      (pipelineNumS opts students teachingTeamMembers)
      (pipelineNumT opts students teachingTeamMembers)
      ((pipelineRowMatches opts students teachingTeamMembers).getD k
        { students := [], teachingTeamMembers := [] }) := by
    unfold rowErrors
    refine List.mem_append_left _ (List.mem_append_left _ (List.mem_append_left _ ?_))
    exact List.mem_filterMap.mpr ⟨u, huk, by rw [hdisq]⟩
  -- row k lands in the unmatched partition
  have henum : (k, (pipelineRowMatches opts students teachingTeamMembers).getD k
      { students := [], teachingTeamMembers := [] })
      ∈ (pipelineRowMatches opts students teachingTeamMembers).enum := by
    rw [List.mem_enum_iff_getElem?]
    rw [List.getElem?_eq_getElem hk]
    rw [List.getD_eq_getElem _ _ hk]
  have hne : (rowErrors (pipelineIsDisq opts students teachingTeamMembers)
      (pipelineNumS opts students teachingTeamMembers)
      (pipelineNumT opts students teachingTeamMembers)
      ((pipelineRowMatches opts students teachingTeamMembers).getD k
        { students := [], teachingTeamMembers := [] })).isEmpty = false := by
    rcases herrs : rowErrors (pipelineIsDisq opts students teachingTeamMembers)
        (pipelineNumS opts students teachingTeamMembers)
        (pipelineNumT opts students teachingTeamMembers)
        ((pipelineRowMatches opts students teachingTeamMembers).getD k
          { students := [], teachingTeamMembers := [] }) with _ | ⟨e, es⟩
    · rw [herrs] at hmsg
      cases hmsg
    · rfl
  have hpre : ({ rawRow := (preProcessCSV opts.csv).rows.getD k []
                 dataColumns := dataColumnsOf
                   (pipelineColTypes opts students teachingTeamMembers)
                   ((preProcessCSV opts.csv).rows.getD k [])
                 errors := rowErrors (pipelineIsDisq opts students teachingTeamMembers)
                   (pipelineNumS opts students teachingTeamMembers)
                   (pipelineNumT opts students teachingTeamMembers)
                   ((pipelineRowMatches opts students teachingTeamMembers).getD k
                     { students := [], teachingTeamMembers := [] })
                 rowIndex := k } : UnmatchedRowPre)
      ∈ (pipelineParts opts students teachingTeamMembers).2 := by
    unfold pipelineParts partitionRows
    refine List.mem_filterMap.mpr ⟨(k, (pipelineRowMatches opts students
      teachingTeamMembers).getD k { students := [], teachingTeamMembers := [] }),
      henum, ?_⟩
    simp only [hne]
    rfl
  refine ⟨matchCSVCore opts students teachingTeamMembers,
    matchCSV_run opts students teachingTeamMembers hS hT hguard, ?_⟩
  refine ⟨_, List.mem_map.mpr ⟨_, hpre, rfl⟩, rfl, ?_⟩
  exact hmsg

/-- A two-student roster with the only-once policy and a table where
`alice` appears in rows 0 and 2. -/
def onlyOnceOpts : Opts :=
  { csv := { headers := ["name"], rows := [["alice"], ["bob"], ["alice"]] }
    students := [aliceRaw, bobRaw]
    studentOnlyOnce := true }

/-- The simplified form of `aliceRaw` at roster position 0. -/
def aliceSimple : SimpleUser :=
  { idx := 0, canvasId := .num 1, fullName := .str "alice", sortableName := .str "sa",
    sisUserId := .str "ia", loginId := .str "la", email := .str "ea" }

/-- Witness for C3 at a concrete input: `alice` is matched in rows 0 and 2,
so even row 0 — the first occurrence — is unmatched, with the message
naming her. -/
theorem c3_uniqueness_retroactive_witness :
    ∃ res, matchCSV onlyOnceOpts = .ok res ∧
      ∃ r ∈ res.unmatchedRows, r.rowIndex = 0
        ∧ disqMessage "student" aliceSimple ∈ r.errors :=
  c3_uniqueness_retroactive onlyOnceOpts (toSimpleUsers [aliceRaw, bobRaw]) []
    rfl rfl (by decide) rfl (by decide) aliceSimple 0 2 (by decide)
    (by decide) (by decide) (by decide) (by decide) 0 (by decide) (by decide)

/-! ## C9: hydration returns the caller's raw records unchanged -/

/-- A simplified user's identifier comes from some raw record of the input
list. -/
theorem toSimpleUsers_canvasId (l : List RawUser) (u : SimpleUser)
    (hu : u ∈ toSimpleUsers l) : ∃ raw ∈ l, u.canvasId = raw.id := by
  unfold toSimpleUsers at hu
  rcases List.mem_map.mp hu with ⟨iu, hiu, rfl⟩
  exact ⟨iu.2, mem_of_mem_enumPairs hiu, rfl⟩

/-- Setting a non-identifier property leaves the identifier unchanged. -/
theorem SimpleUser.canvasId_set (u : SimpleUser) (p : PropName) (v : JSVal)
    (hp : p ≠ .canvasId) : (u.set p v).canvasId = u.canvasId := by
  cases p
  · exact absurd rfl hp
  all_goals rfl

/-- The duplicate detector never returns the identifier property (it is
always the first component of a pair, never the second). -/
theorem findSecondPropOfDuplicate_ne_canvasId (objs : List SimpleUser) (p : PropName)
    (h : findSecondPropOfDuplicate objs = some p) : p ≠ .canvasId := by
  unfold findSecondPropOfDuplicate at h
  by_cases he : objs.isEmpty
  · rw [if_pos he] at h
    cases h
  · rw [if_neg he, if_neg (by decide)] at h
    rcases hfind : dupPairs.find? (fun pq =>
        objs.all (fun o => jsStrictEq (o.get pq.1) (o.get pq.2))) with _ | pq
    · rw [hfind] at h
      cases h
    · rw [hfind] at h
      have hmem : pq ∈ dupPairs := List.mem_of_find?_eq_some hfind
      have hsnd : ∀ q ∈ dupPairs, q.2 ≠ PropName.canvasId := by decide
      have hp : p = pq.2 := (Option.some.inj h).symm
      rw [hp]
      exact hsnd pq hmem

/-- The elision loop preserves every user's identifier. -/
theorem preProcessLoop_canvasId (fuel : ℕ) (objs out : List SimpleUser)
    (h : preProcessLoop fuel objs = some out) :
    ∀ v ∈ out, ∃ w ∈ objs, v.canvasId = w.canvasId := by
  induction fuel generalizing objs with
  | zero => cases h
  | succ n ih =>
    unfold preProcessLoop at h
    rcases hf : findSecondPropOfDuplicate objs with _ | p <;> rw [hf] at h
    · intro v hv
      exact ⟨v, (Option.some.inj h) ▸ hv, rfl⟩
    · intro v hv
      obtain ⟨w, hw, hcv⟩ := ih _ h v hv
      rcases List.mem_map.mp hw with ⟨w0, hw0, rfl⟩
      refine ⟨w0, hw0, ?_⟩
      rw [hcv]
      exact SimpleUser.canvasId_set w0 p .undef
        (findSecondPropOfDuplicate_ne_canvasId objs p hf)

/-- Every normalized identity's identifier is the `id` of some caller
record. -/
theorem preProcessUsers_canvasId (raws : List RawUser) (out : List SimpleUser)
    (h : preProcessUsers raws = some out) (u : SimpleUser) (hu : u ∈ out) :
    ∃ raw ∈ raws, u.canvasId = raw.id := by
  obtain ⟨w, hw, hc⟩ := preProcessLoop_canvasId 8 _ _ h u hu
  obtain ⟨raw, hraw, hcw⟩ := toSimpleUsers_canvasId raws w hw
  exact ⟨raw, hraw, by rw [hc, hcw]⟩

/-- Whatever `idToFullUser` returns is one of the caller's records, bearing
the looked-up identifier. -/
theorem idToFullUser_sound (s t : List RawUser) (k : String) (raw : RawUser)
    (h : idToFullUser s t k = some raw) :
    raw ∈ s ++ t ∧ jsValToString raw.id = k := by
  unfold idToFullUser at h
  have main : ∀ (l : List RawUser) (m0 : String → Option RawUser),
      (l.foldl (fun m u => fun k2 => if k2 = jsValToString u.id then some u else m k2) m0) k
        = some raw →
      (raw ∈ l ∧ jsValToString raw.id = k) ∨ m0 k = some raw := by
    intro l
    induction l with
    | nil => intro m0 h; exact Or.inr h
    | cons v vs ih =>
      intro m0 h
      rcases ih _ h with ⟨h1, h2⟩ | h1
      · exact Or.inl ⟨List.mem_cons_of_mem v h1, h2⟩
      · have h1' : (if k = jsValToString v.id then some v else m0 k) = some raw := h1
        by_cases hk : k = jsValToString v.id
        · rw [if_pos hk] at h1'
          exact Or.inl ⟨(Option.some.inj h1') ▸ List.mem_cons_self v vs,
            by rw [← Option.some.inj h1', hk]⟩
        · rw [if_neg hk] at h1'
          exact Or.inr h1'
  rcases main (s ++ t) _ h with h1 | h1
  · exact h1
  · cases h1

/-- Totality: `idToFullUser` finds an entry for the identifier of any caller
record. -/
theorem idToFullUser_total (s t : List RawUser) (raw : RawUser)
    (hraw : raw ∈ s ++ t) :
    (idToFullUser s t (jsValToString raw.id)).isSome = true := by
  unfold idToFullUser
  have main : ∀ (l : List RawUser) (m0 : String → Option RawUser),
      (∃ r ∈ l, jsValToString r.id = jsValToString raw.id) ∨ (m0 (jsValToString raw.id)).isSome = true →
      ((l.foldl (fun m u => fun k2 => if k2 = jsValToString u.id then some u else m k2) m0)
        (jsValToString raw.id)).isSome = true := by
    intro l
    induction l with
    | nil =>
      intro m0 h
      rcases h with ⟨r, hr, _⟩ | h
      · cases hr
      · exact h
    | cons v vs ih =>
      intro m0 h
      refine ih _ ?_
      rcases h with ⟨r, hr, hk⟩ | h
      · rcases List.mem_cons.mp hr with rfl | hr'
        · right
          show (if jsValToString raw.id = jsValToString r.id
            then some r else m0 (jsValToString raw.id)).isSome = true
          rw [if_pos hk.symm]
          rfl
        · exact Or.inl ⟨r, hr', hk⟩
      · right
        show (if jsValToString raw.id = jsValToString v.id
          then some v else m0 (jsValToString raw.id)).isSome = true
        by_cases hk : jsValToString raw.id = jsValToString v.id
        · rw [if_pos hk]
          rfl
        · rw [if_neg hk]
          exact h
  exact main (s ++ t) _ (Or.inl ⟨raw, hraw, rfl⟩)

/-- C9 (confirmed): hydration substitutes exactly the caller-supplied raw
records.  Every lookup the hydrator can answer is answered with one of the
caller's own records bearing that identifier (all fields intact, including
the opaque `extra` payload), and every user list of every matched row in
the result consists of such records — never a missing lookup.  The engine
is a pure function of its input, so the caller's records are not
mutated. -/
theorem c9_hydration_identity
    (opts : Opts) (students teachingTeamMembers : List SimpleUser) (res : MatchResult)
    (hS : preProcessUsers opts.students = some students)
    (hT : preProcessUsers opts.teachingTeamMembers = some teachingTeamMembers)
    (hguard : (students.isEmpty && teachingTeamMembers.isEmpty) = false)
    (hOk : matchCSV opts = .ok res) :
    (∀ k raw, idToFullUser opts.students opts.teachingTeamMembers k = some raw →
      raw ∈ opts.students ++ opts.teachingTeamMembers ∧ jsValToString raw.id = k)
    ∧ (∀ r ∈ res.matchedRows,
        (∀ x ∈ r.students, ∃ raw, x = some raw
          ∧ raw ∈ opts.students ++ opts.teachingTeamMembers)
        ∧ (∀ x ∈ r.teachingTeamMembers, ∃ raw, x = some raw
          ∧ raw ∈ opts.students ++ opts.teachingTeamMembers)) := by
  have hres : res = matchCSVCore opts students teachingTeamMembers := by
    rw [matchCSV_run opts students teachingTeamMembers hS hT hguard] at hOk
    exact (MatchOutcome.ok.inj hOk).symm
  refine ⟨fun k raw h => idToFullUser_sound _ _ k raw h, ?_⟩
  have hpartmem : ∀ pre : MatchedRowPre,
      pre ∈ (pipelineParts opts students teachingTeamMembers).1 →
      (∀ u ∈ pre.students, u ∈ students)
      ∧ (∀ u ∈ pre.teachingTeamMembers, u ∈ teachingTeamMembers) := by
    intro pre hpre
    unfold pipelineParts partitionRows at hpre
    rcases List.mem_filterMap.mp hpre with ⟨irm, hirm, hf⟩
    have hrm : irm.2 ∈ pipelineRowMatches opts students teachingTeamMembers :=
      mem_of_mem_enumPairs hirm
    rcases List.mem_map.mp hrm with ⟨row, _, heq⟩
    by_cases hemp : (rowErrors (pipelineIsDisq opts students teachingTeamMembers)
        (pipelineNumS opts students teachingTeamMembers)
        (pipelineNumT opts students teachingTeamMembers) irm.2).isEmpty = true
    · rw [if_pos hemp] at hf
      have hpre_eq := Option.some.inj hf
      constructor
      · intro u hu
        have hu2 : u ∈ irm.2.students := by
          rw [← hpre_eq] at hu
          exact hu
        rw [← heq] at hu2
        exact computeRowMatch_students_mem students teachingTeamMembers _ row hu2
      · intro u hu
        have hu2 : u ∈ irm.2.teachingTeamMembers := by
          rw [← hpre_eq] at hu
          exact hu
        rw [← heq] at hu2
        exact computeRowMatch_ttms_mem students teachingTeamMembers _ row hu2
    · rw [if_neg hemp] at hf
      cases hf
  intro r hr
  rw [hres] at hr
  rcases List.mem_map.mp hr with ⟨pre, hpre, rfl⟩
  obtain ⟨hpreS, hpreT⟩ := hpartmem pre hpre
  constructor
  · intro x hx
    rcases List.mem_map.mp hx with ⟨u, hu, rfl⟩
    obtain ⟨raw, hraw, hid⟩ :=
      preProcessUsers_canvasId opts.students students hS u (hpreS u hu)
    have hkeq : jsValToString u.canvasId = jsValToString raw.id := by rw [hid]
    have htot := idToFullUser_total opts.students opts.teachingTeamMembers raw
      (List.mem_append_left _ hraw)
    rcases hlk : idToFullUser opts.students opts.teachingTeamMembers
        (jsValToString u.canvasId) with _ | raw2
    · rw [hkeq] at hlk
      rw [hlk] at htot
      cases htot
    · obtain ⟨hmem2, _⟩ := idToFullUser_sound _ _ _ raw2 hlk
      exact ⟨raw2, rfl, hmem2⟩
  · intro x hx
    rcases List.mem_map.mp hx with ⟨u, hu, rfl⟩
    obtain ⟨raw, hraw, hid⟩ :=
      preProcessUsers_canvasId opts.teachingTeamMembers teachingTeamMembers hT u
        (hpreT u hu)
    have hkeq : jsValToString u.canvasId = jsValToString raw.id := by rw [hid]
    have htot := idToFullUser_total opts.students opts.teachingTeamMembers raw
      (List.mem_append_right _ hraw)
    rcases hlk : idToFullUser opts.students opts.teachingTeamMembers
        (jsValToString u.canvasId) with _ | raw2
    · rw [hkeq] at hlk
      rw [hlk] at htot
      cases htot
    · obtain ⟨hmem2, _⟩ := idToFullUser_sound _ _ _ raw2 hlk
      exact ⟨raw2, rfl, hmem2⟩

/-! ## C6: the Confidence Scorer -/

/-- Witness for C9 at a concrete input: a one-column one-row table matching
`alice`; her output record is exactly the caller's record. -/
theorem c9_hydration_identity_witness :
    idToFullUser [aliceRaw] [] "1" = some aliceRaw
    ∧ (aliceRaw ∈ [aliceRaw] ++ ([] : List RawUser) ∧ jsValToString aliceRaw.id = "1") :=
  ⟨by decide,
    (c9_hydration_identity
      { csv := { headers := ["name"], rows := [["alice"]] }, students := [aliceRaw] }
      (toSimpleUsers [aliceRaw]) []
      (matchCSVCore
        { csv := { headers := ["name"], rows := [["alice"]] }, students := [aliceRaw] }
        (toSimpleUsers [aliceRaw]) [])
      rfl rfl (by decide) rfl).1 "1" aliceRaw (by decide)⟩
